import Mathlib

/-!
Verification of the EC3 EPD matcher core (material-code parsing, EPD
pre-filtering, confidence validation, batch response correlation and
result aggregation) against its natural-language specification.

The Python sources are embedded shallowly:

* `str` values become `String`; `str.lower()` / `str.upper()` are modelled
  with the ASCII case maps `Char.toLower` / `Char.toUpper` (the inputs the
  pipeline handles are ASCII apart from keyword constants that are already
  lower-case where it matters);
* `needle in haystack` becomes `pyIn`;
* Python slicing `l[:n]` (including negative `n`) becomes `pySliceTo`;
* `dict` records become structures; `dict.get(k, d)` on a key that the
  record always carries is a field projection;
* code paths that raise in Python (`None.lower()`, `min(None, k)`,
  comparisons with `None`, `KeyError`) are modelled by `Option`-returning
  functions, `none` marking the raising execution;
* `list.sort(key=…, reverse=True)` (a stable descending sort) is modelled
  by the stable insertion sort `pySortDescBy`, which produces the same
  list as any stable descending sort;
* JSON values decoded by `json.loads` are modelled by the inductive `JVal`;
  the textual decoding step itself is abstracted: parsing functions take
  the decoded value (`none` for undecodable text).
-/

namespace EPD

/-! ### Python string primitives -/

/-- ASCII whitespace matched by Python `\s` and stripped by `str.strip()`. -/
def isPyWS (c : Char) : Bool :=
  c == ' ' || c == '\t' || c == '\n' || c == '\r' || c == '\x0b' || c == '\x0c'

/-- Model of Python `str.strip()` on the character list. -/
def stripWS (l : List Char) : List Char :=
  ((l.dropWhile isPyWS).reverse.dropWhile isPyWS).reverse

/-- Substring test on character lists: `hasSubstr needle hay` is
Python `needle in hay` (true for the empty needle). -/
def hasSubstr (needle : List Char) : List Char → Bool
  | [] => needle.isEmpty
  | c :: rest => needle.isPrefixOf (c :: rest) || hasSubstr needle rest

/-- Python `needle in hay` for strings. -/
def pyIn (needle hay : String) : Bool :=
  hasSubstr needle.data hay.data

/-- Python `str.lower()` (ASCII case map, see file header). -/
def lowerStr (s : String) : String :=
  ⟨s.data.map Char.toLower⟩

/-- Python `str.upper()` (ASCII case map, see file header). -/
def upperStr (s : String) : String :=
  ⟨s.data.map Char.toUpper⟩

/-- Python slicing `l[:n]` for an `int` bound `n`, including the
negative-index semantics (`l[:-k]` drops the last `k` elements). -/
def pySliceTo (l : List α) (n : Int) : List α :=
  if 0 ≤ n then l.take n.toNat
  else l.take (l.length - min l.length n.natAbs)

/-- Value of a non-empty ASCII digit group, as computed by Python `int`. -/
def digitsVal (ds : List Char) : Nat :=
  ds.foldl (fun acc c => 10 * acc + (c.toNat - '0'.toNat)) 0

/-- Python `int(s)` for a string: strips whitespace, accepts an optional
sign followed by at least one digit, otherwise raises (`none`). Exotic
accepted spellings such as underscores in literals are not modelled. -/
def pyIntOfStr (s : String) : Option Int :=
  let t := stripWS s.data
  let core : List Char → Option Int := fun ds =>
    if ds.isEmpty || ds.any (fun c => !c.isDigit) then none
    else some (Int.ofNat (digitsVal ds))
  match t with
  | '-' :: rest => (core rest).map (fun v => -v)
  | '+' :: rest => core rest
  | _ => core t

/-- Stable insertion of `x` into a list already sorted descending by
`key`; `x` goes before the first element with a strictly smaller key,
so elements with equal keys keep their original relative order. -/
def pyInsertDescBy (key : α → Int) (x : α) : List α → List α
  | [] => [x]
  | y :: ys => if key y ≤ key x then x :: y :: ys else y :: pyInsertDescBy key x ys

/-- Model of Python `list.sort(key=key, reverse=True)`: the unique stable
descending reordering, computed by stable insertion sort. -/
def pySortDescBy (key : α → Int) : List α → List α
  | [] => []
  | x :: xs => pyInsertDescBy key x (pySortDescBy key xs)

/-! ### Glossary constants (`utils/asphalt_glossar.py`) -/

/-- `ASPHALT_TYPES[t]["suchbegriffe"]`, `none` for an unknown key
(Python `KeyError`). -/
def suchbegriffeOf (t : String) : Option (List String) :=
  if t = "AC" then some ["Asphaltbeton", "Asphalt", "Bitumen", "bituminös",
    "Asphaltmischgut", "Heißasphalt", "Walzasphalt"]
  else if t = "SMA" then some ["Splittmastixasphalt", "Splittmastix", "SMA",
    "Stone Mastic", "Mastixasphalt"]
  else if t = "MA" then some ["Gussasphalt", "Mastic Asphalt", "Asphaltmastix",
    "Gießasphalt", "MA"]
  else if t = "PA" then some ["Offenporiger Asphalt", "OPA", "Drainasphalt",
    "Porous Asphalt", "Drainageschicht", "lärmmindernd", "Flüsterasphalt", "PA"]
  else none

/-- `ASPHALT_TYPES[t]["name_de"]` for the four known keys. -/
def typNameDe (t : String) : String :=
  if t = "AC" then "Asphaltbeton"
  else if t = "SMA" then "Splittmastixasphalt"
  else if t = "MA" then "Gussasphalt"
  else if t = "PA" then "Offenporiger Asphalt"
  else ""

/-- `ASPHALT_TYPES` fuzzy-match table, in dict insertion order. -/
def fuzzyTable : List (String × List String) :=
  [("AC", ["aspahlt", "asphalt", "bitumen", "bituminös"]),
   ("SMA", ["splittmastix", "sma", "mastix"]),
   ("MA", ["gussasphalt", "gießasphalt", "mastic"]),
   ("PA", ["offenporig", "drainasphalt", "opa", "flüsterasphalt"])]

/-- `LAYER_CODES[c]["name_de"]`. -/
def layerNameDe (c : String) : String :=
  if c = "T" then "Asphalttragschicht"
  else if c = "B" then "Asphaltbinder"
  else if c = "D" then "Asphaltdeckschicht"
  else if c = "TD" then "Asphalttragdeckschicht"
  else ""

/-- `LAYER_CODES[c]["epd_muss_enthalten"]`. -/
def layerMuss (c : String) : String :=
  if c = "T" then "Trag"
  else if c = "B" then "Binder"
  else if c = "D" then "Deck"
  else if c = "TD" then "Tragdeck"
  else ""

/-- `LAYER_CODES` name-variant table, in dict insertion order. -/
def layerVarianten : List (String × List String) :=
  [("T", ["tragschicht", "trag"]),
   ("B", ["binderschicht", "binder"]),
   ("D", ["deckschicht", "deck", "decke", "verschleiß"]),
   ("TD", ["tragdeckschicht", "tragdeck"])]

/-- `LOAD_CLASSES[c]["name_de"]`. -/
def loadNameDe (c : String) : String :=
  if c = "S" then "besondere Beanspruchung"
  else if c = "N" then "normale Beanspruchung"
  else if c = "L" then "leichte Beanspruchung"
  else ""

/-- `PMB_KEYWORDS`. -/
def PMB_KEYWORDS : List String :=
  ["PMB", "POLYMER", "MODIFIZIERT", "ELASTOMER",
   "10/40-65", "25/55-55", "45/80-50", "40/100-65"]

/-- `AUSSCHLUSS_BEGRIFFE`, the global exclusion list. -/
def AUSSCHLUSS_BEGRIFFE : List String :=
  ["Betonpflaster", "Pflasterstein", "Betonstein",
   "Betonsteinpflaster", "Verbundpflaster",
   "C20/25", "C25/30", "C30/37", "C35/45", "C40/50", "C45/55", "C50/60",
   "Mörtel", "Estrich",
   "Kalksandstein", "Mauerwerk", "Ziegel",
   "Anhydrit", "Gips",
   "HGT"]

/-! ### Material code parser (`utils/asphalt_glossar.py`) -/

/-- Result dict of `_parse_normierte_bezeichnung`. -/
structure NBResult where
  typ : String
  typ_name : String
  groesstkorn_mm : Nat
  schicht : Option String
  schicht_name : Option String
  schicht_epd_muss_enthalten : Option String
  beanspruchung : Option String
  beanspruchung_name : Option String
  ist_pmb : Bool
  deriving Repr, DecidableEq

/-- `_ist_polymermodifiziert`: upper-cases the text and looks for any
`PMB_KEYWORDS` entry. -/
def ist_polymermodifiziert (text : String) : Bool :=
  PMB_KEYWORDS.any (fun kw => pyIn kw (upperStr text))

/-- Type alternation `(AC|SMA|MA|PA)` of the grammar regex, anchored at the
head of the list. The four alternatives start with pairwise distinct
characters, so the ordered alternation never needs backtracking and this
first-match function is exact. -/
def matchTyp : List Char → Option (String × List Char)
  | l =>
    if l.take 2 = ['A', 'C'] then some ("AC", l.drop 2)
    else if l.take 3 = ['S', 'M', 'A'] then some ("SMA", l.drop 3)
    else if l.take 2 = ['M', 'A'] then some ("MA", l.drop 2)
    else if l.take 2 = ['P', 'A'] then some ("PA", l.drop 2)
    else none

/-- Optional layer group `(TD|T|B|D)?`: ordered alternation, `TD` before
`T`; since everything after the group in the regex is optional, the
greedy first match is exact. -/
def matchLayer : List Char → Option String × List Char
  | l =>
    if l.take 2 = ['T', 'D'] then (some "TD", l.drop 2)
    else if l.take 1 = ['T'] then (some "T", l.drop 1)
    else if l.take 1 = ['B'] then (some "B", l.drop 1)
    else if l.take 1 = ['D'] then (some "D", l.drop 1)
    else (none, l)

/-- Optional load group `([SNL])?`. -/
def matchLoad : List Char → Option String × List Char
  | l =>
    if l.take 1 = ['S'] then (some "S", l.drop 1)
    else if l.take 1 = ['N'] then (some "N", l.drop 1)
    else if l.take 1 = ['L'] then (some "L", l.drop 1)
    else (none, l)

/-- `_parse_normierte_bezeichnung`: upper-case and strip the input, then
match the anchored prefix regex `(AC|SMA|MA|PA)\s*(\d+)\s*(TD|T|B|D)?\s*([SNL])?`
(`re.match`, so trailing text is ignored); for `SMA`/`MA`/`PA` without an
explicit layer the layer defaults to `D`. -/
def parse_normierte_bezeichnung (bezeichnung : String) : Option NBResult :=
  let bez := stripWS (bezeichnung.data.map Char.toUpper)
  match matchTyp bez with
  | none => none
  | some (typ, r1) =>
    let r2 := r1.dropWhile isPyWS
    let ds := r2.takeWhile Char.isDigit
    if ds.isEmpty then none
    else
      let r3 := r2.dropWhile Char.isDigit
      let (layerOpt, r4) := matchLayer (r3.dropWhile isPyWS)
      let (loadOpt, _) := matchLoad (r4.dropWhile isPyWS)
      let schicht :=
        if (typ = "SMA" ∨ typ = "MA" ∨ typ = "PA") ∧ layerOpt = none then some "D"
        else layerOpt
      some {
        typ := typ
        typ_name := typNameDe typ
        groesstkorn_mm := digitsVal ds
        schicht := schicht
        schicht_name := schicht.map layerNameDe
        schicht_epd_muss_enthalten := schicht.map layerMuss
        beanspruchung := loadOpt
        beanspruchung_name := loadOpt.map loadNameDe
        ist_pmb := ist_polymermodifiziert bezeichnung }

/-- `_fuzzy_match_asphalt_type`: first type whose fuzzy keyword occurs in
the lower-cased text, in dict insertion order. -/
def fuzzy_match_asphalt_type (text : String) : Option String :=
  (fuzzyTable.find? (fun p => p.2.any (fun kw => pyIn kw (lowerStr text)))).map (·.1)

/-- `_schicht_aus_name`: first layer code one of whose name variants occurs
in the lower-cased layer name. -/
def schicht_aus_name (schicht_name : String) : Option String :=
  (layerVarianten.find? (fun p => p.2.any (fun kw => pyIn kw (lowerStr schicht_name)))).map (·.1)

/-- `_ist_generisch_asphalt`. -/
def ist_generisch_asphalt (text : String) : Bool :=
  ["asphalt", "aspahlt", "bitumen", "bituminös", "bituminos",
   "schwarzdecke", "heißmischgut"].any (fun kw => pyIn kw (lowerStr text))

/-- Result dict of `parse_material_input`. The pipeline always passes a
string (possibly empty) for the layer name, so `schicht_name_original`
is a `String`. -/
structure ParsedMaterial where
  material_original : String
  schicht_name_original : String
  typ : Option String
  typ_name : Option String
  schicht : Option String
  schicht_name : Option String
  schicht_epd_muss_enthalten : Option String
  groesstkorn_mm : Option Nat
  beanspruchung : Option String
  beanspruchung_name : Option String
  ist_pmb : Bool
  ist_asphalt : Bool
  confidence_hint : String
  quelle : String
  deriving Repr, DecidableEq

/-- `parse_material_input`: normed-code parse, then fuzzy type match, then
layer from the hint, then the polymer flag, then the generic-asphalt
fallback. -/
def parse_material_input (material_name : String) (schicht_name : String) :
    ParsedMaterial :=
  let base : ParsedMaterial := {
    material_original := material_name
    schicht_name_original := schicht_name
    typ := none, typ_name := none
    schicht := none, schicht_name := none
    schicht_epd_muss_enthalten := none
    groesstkorn_mm := none
    beanspruchung := none, beanspruchung_name := none
    ist_pmb := false, ist_asphalt := false
    confidence_hint := "", quelle := "unbekannt" }
  match parse_normierte_bezeichnung material_name with
  | some nb =>
    { base with
      typ := some nb.typ, typ_name := some nb.typ_name
      groesstkorn_mm := some nb.groesstkorn_mm
      schicht := nb.schicht, schicht_name := nb.schicht_name
      schicht_epd_muss_enthalten := nb.schicht_epd_muss_enthalten
      beanspruchung := nb.beanspruchung
      beanspruchung_name := nb.beanspruchung_name
      ist_pmb := nb.ist_pmb
      quelle := "bezeichnung", ist_asphalt := true
      confidence_hint := "Normierte Bezeichnung erkannt" }
  | none =>
    let r1 :=
      match fuzzy_match_asphalt_type material_name with
      | some t =>
        { base with
          typ := some t
          typ_name := some (typNameDe t)
          ist_asphalt := true
          quelle := "fuzzy" }
      | none => base
    let r2 :=
      if schicht_name ≠ "" then
        match schicht_aus_name schicht_name with
        | some code =>
          { r1 with
            schicht := some code
            schicht_name := some (layerNameDe code)
            schicht_epd_muss_enthalten := some (layerMuss code)
            quelle := if r1.quelle = "unbekannt" then "schichtname" else r1.quelle
            confidence_hint :=
              "Schicht aus NAME-Feld \x27" ++ schicht_name ++ "\x27 abgeleitet" }
        | none => r1
      else r1
    let r3 := { r2 with ist_pmb := ist_polymermodifiziert material_name }
    if ¬ r3.ist_asphalt ∧ ist_generisch_asphalt material_name then
      { r3 with
        ist_asphalt := true
        typ := some "AC"
        typ_name := some "Asphaltbeton (angenommen)"
        quelle := "fuzzy"
        confidence_hint := "Generischer Asphalt-Begriff erkannt" }
    else r3

/-! ### Catalog entries and EPD pre-filter (`utils/asphalt_glossar.py`) -/

/-- A catalog entry as the matcher consumes it: identifier (modelled as its
`str()` rendering), display name and classification text. -/
structure Entry where
  id : String
  name : String
  klassifizierung : String
  deriving Repr, DecidableEq

/-- The empty dict Python substitutes for a missing entry: all lookups with
string defaults yield `""`. -/
def defaultEntry : Entry := { id := "", name := "", klassifizierung := "" }

/-- The combined lower-cased name + classification text an entry is
matched on (`f"{epd_name} {epd_klassifizierung}"` after `.lower()`). -/
def combinedText (e : Entry) : String :=
  lowerStr e.name ++ " " ++ lowerStr e.klassifizierung

/-- `_ist_ausgeschlossen`: the text contains some global exclusion term. -/
def ist_ausgeschlossen (text : String) : Bool :=
  AUSSCHLUSS_BEGRIFFE.any (fun excl => pyIn (lowerStr excl) (lowerStr text))

/-- One pass of the `filter_epds_for_material` loop, splitting the pool
into the primary tier (layer keyword present) and the secondary tier. -/
def filterLoop (schichtMuss : String) (typBegriffe : List String) :
    List Entry → List Entry × List Entry
  | [] => ([], [])
  | e :: rest =>
    let ps := filterLoop schichtMuss typBegriffe rest
    let combined := combinedText e
    if ist_ausgeschlossen combined then ps
    else if ¬ ist_generisch_asphalt combined ∧
        ¬ typBegriffe.any (fun t => pyIn t combined) then ps
    else if schichtMuss ≠ "" ∧ pyIn schichtMuss combined then (e :: ps.1, ps.2)
    else (ps.1, e :: ps.2)

/-- The lower-cased type search keywords the filter matches against
(`ASPHALT_TYPES[parsed_material["typ"]]["suchbegriffe"]` when a truthy
type is set, else the empty list; `none` for a `KeyError` on an unknown
type key). -/
def typ_suchbegriffe (pm : ParsedMaterial) : Option (List String) :=
  match pm.typ with
  | some t =>
    if t = "" then some []
    else
      match suchbegriffeOf t with
      | some ws => some (ws.map lowerStr)
      | none => none
  | none => some []

/-- `filter_epds_for_material`. A non-paving classification passes the
bounded pool through unfiltered. For a paving classification whose
`schicht_epd_muss_enthalten` is unset the Python code raises
(`None.lower()`), modelled by `none`; an unknown type key would raise
`KeyError`, likewise `none`. -/
def filter_epds_for_material (epds : List Entry) (pm : ParsedMaterial)
    (maxEpds : Int) : Option (List Entry × List Entry) :=
  if ¬ pm.ist_asphalt then some (pySliceTo epds maxEpds, [])
  else
    match pm.schicht_epd_muss_enthalten with
    | none => none
    | some sm =>
      let schichtMuss := lowerStr sm
      match typ_suchbegriffe pm with
      | none => none
      | some typBegriffe =>
        let ps := filterLoop schichtMuss typBegriffe epds
        if (ps.1.length : Int) ≥ maxEpds then some (pySliceTo ps.1 maxEpds, [])
        else some (ps.1, pySliceTo ps.2 (maxEpds - ps.1.length))

/-! ### Confidence validator (`matching/epd_filter.py`) -/

/-- `MATERIAL_MISMATCHES.get(t, [])`. -/
def material_mismatches (t : String) : List String :=
  if t = "asphalt" then
    ["bitumenbahn", "bitumenbahnen", "dachbahn", "dachabdichtung",
     "schweißbahn", "kaltselbstklebebahn", "dampfsperre", "emulsion"]
  else if t = "schotter" then
    ["bitumenbahn", "bitumenbahnen", "asphalt", "gussasphalt",
     "emulsion", "dampfsperre"]
  else if t = "daemmung" then
    ["bitumenbahn", "bitumenbahnen", "asphalt", "gussasphalt",
     "schotter", "kies", "splitt", "emulsion"]
  else []

/-- `ConfidenceValidator._get_material_type`. -/
def get_material_type (pm : ParsedMaterial) : Option String :=
  let combined := lowerStr pm.material_original ++ " " ++ lowerStr pm.schicht_name_original
  if pm.ist_asphalt then some "asphalt"
  else if ["schotter", "kies", "splitt", "frostschutz"].any
      (fun kw => pyIn kw combined) then some "schotter"
  else if ["dämm", "xps", "eps", "pur", "pir", "mineralwolle"].any
      (fun kw => pyIn kw combined) then some "daemmung"
  else none

/-- `ConfidenceValidator._ist_gleicher_material_typ`. -/
def ist_gleicher_material_typ (epdCombined : String) (pm : ParsedMaterial) : Bool :=
  if pm.ist_asphalt then
    ["asphalt", "bituminös"].any (fun kw => pyIn kw epdCombined)
  else false

/-- `ConfidenceValidator.validate_match`: the ordered rule cascade on a
single candidate with integer raw confidence. -/
def validate_match (epd : Entry) (pm : ParsedMaterial) (gptConfidence : Int) :
    Int × String :=
  let combined := combinedText epd
  match AUSSCHLUSS_BEGRIFFE.find? (fun excl => pyIn (lowerStr excl) combined) with
  | some excl =>
    (min gptConfidence 25, "Ausschluss-Begriff \x27" ++ excl ++ "\x27 gefunden")
  | none =>
    let mismatchHit : Option (String × String) :=
      match get_material_type pm with
      | some mt =>
        ((material_mismatches mt).find? (fun mm => pyIn mm combined)).map
          (fun mm => (mm, mt))
      | none => none
    match mismatchHit with
    | some (mm, mt) =>
      (min gptConfidence 20, "\x27" ++ mm ++ "\x27 passt nicht zu " ++ mt)
    | none =>
      let sm := pm.schicht_epd_muss_enthalten.getD ""
      if sm ≠ "" ∧ ¬ pyIn (lowerStr sm) combined then
        if ist_gleicher_material_typ combined pm then
          (min gptConfidence 60, "Schicht-Begriff \x27" ++ sm ++ "\x27 fehlt")
        else
          (min gptConfidence 35,
           "Schicht-Begriff \x27" ++ sm ++ "\x27 fehlt + falscher Typ")
      else
        let istAsphaltKw :=
          ["asphalt", "bitumen", "bituminös"].any
            (fun kw => pyIn (lowerStr kw) combined)
        if pm.ist_asphalt ∧ ¬ istAsphaltKw then
          (min gptConfidence 35, "Kein Asphalt-Bezug im EPD")
        else (gptConfidence, "Validiert")

/-- A match candidate as produced by the response parser (and enriched by
batch validation). `confidence_original` is only ever set by
`validate_batch_results`. -/
structure MatchResult where
  uuid : String
  begruendung : String
  confidence : Option Int
  confidence_original : Option Int := none
  deriving Repr, DecidableEq

/-- One material's context as `validate_batch_results` reads it. -/
structure MaterialInput where
  material_name : String
  name : String
  deriving Repr, DecidableEq

/-- The `epd_by_id` dict built by `validate_batch_results` (later entries
with the same id win) with the empty-dict default. -/
def epd_by_id (epds : List Entry) (key : String) : Entry :=
  ((epds.reverse.find? (fun e => e.id == key)).getD defaultEntry)

/-- The per-group candidate loop of `validate_batch_results`: validate,
drop below the hard-coded 25, annotate a changed confidence. `none`
models the `TypeError` Python raises when a candidate carries a null
confidence (`min(None, _)` or `None < 25`). -/
def validate_one_group (pm : ParsedMaterial) (epds : List Entry) :
    List MatchResult → Option (List MatchResult)
  | [] => some []
  | m :: rest =>
    match m.confidence with
    | none => none
    | some g =>
      let epd := epd_by_id epds m.uuid
      let vr := validate_match epd pm g
      if vr.1 < 25 then validate_one_group pm epds rest
      else
        let vm :=
          if vr.1 ≠ g then
            { m with
              confidence := some vr.1
              begruendung := m.begruendung ++ " [Korrigiert: " ++ vr.2 ++ "]"
              confidence_original := some g }
          else { m with confidence := some vr.1 }
        (validate_one_group pm epds rest).map (vm :: ·)

/-- The sort key of the final per-group sort
(`x.get("confidence", 0)`; every kept candidate carries an integer). -/
def confKey (m : MatchResult) : Int := m.confidence.getD 0

/-- Index-carrying recursion of `validate_batch_results`. -/
def vbrGo (materials : List MaterialInput) (epds : List Entry) :
    Nat → List (List MatchResult) → Option (List (List MatchResult))
  | _, [] => some []
  | idx, g :: gs =>
    let material := materials.getD idx { material_name := "", name := "" }
    let pm := parse_material_input material.material_name material.name
    match validate_one_group pm epds g with
    | none => none
    | some vg =>
      (vbrGo materials epds (idx + 1) gs).map (pySortDescBy confKey vg :: ·)

/-- `ConfidenceValidator.validate_batch_results`. -/
def validate_batch_results (matchesPerSchicht : List (List MatchResult))
    (materials : List MaterialInput) (epds : List Entry) :
    Option (List (List MatchResult)) :=
  vbrGo materials epds 0 matchesPerSchicht

/-! ### Configuration (`config/settings.py`) -/

/-- `_parse_int`: `int()` of the environment value with a fallback default
(`os.getenv` yields `none` when the variable is unset; `int(None)` raises
`TypeError`, which is caught). -/
def parse_int_config (value : Option String) (dflt : Int) : Int :=
  match value with
  | none => dflt
  | some s => (pyIntOfStr s).getD dflt

/-- `ValidationConfig.MIN_CONFIDENCE`: the configured minimum confidence,
read from the `EPD_MIN_CONFIDENCE` environment variable, default 25. -/
def MIN_CONFIDENCE (env : Option String) : Int :=
  parse_int_config env 25

/-! ### Single-material validation loop body (`matching/azure_matcher.py`,
`match_material`, stage 5) -/

/-- One iteration of the single-material validation loop: look the EPD up
in the filtered pool, validate, assign the corrected confidence and then
test `new_conf != match.get("confidence")` — a comparison made after the
assignment. `none` models a candidate with a null parsed confidence, on
which the later `MIN_CONFIDENCE` comparison raises in Python. -/
def single_validate_step (filteredEpds : List Entry) (pm : ParsedMaterial)
    (m : MatchResult) : Option MatchResult :=
  match m.confidence with
  | none => none
  | some g =>
    let epd := (filteredEpds.find? (fun e => e.id == m.uuid)).getD defaultEntry
    let vr := validate_match epd pm g
    let m1 := { m with confidence := some vr.1 }
    if some vr.1 ≠ m1.confidence then
      some { m1 with begruendung := m1.begruendung ++ " [Korrigiert: " ++ vr.2 ++ "]" }
    else some m1

/-! ### Decoded JSON values and the response parsers
(`matching/azure_matcher.py`) -/

/-- A JSON value as produced by `json.loads` (numbers restricted to the
integers the pipeline handles). -/
inductive JVal where
  | null
  | bool (b : Bool)
  | num (n : Int)
  | str (s : String)
  | arr (elems : List JVal)
  | obj (fields : List (String × JVal))

/-- Dict lookup on decoded object fields (`d.get(k)`), `none` when the key
is absent. -/
def objGet? (fields : List (String × JVal)) (key : String) : Option JVal :=
  (fields.find? (fun kv => kv.1 == key)).map (·.2)

/-- Whether a decoded value is a JSON object (a Python dict). -/
def isObjJ : JVal → Bool
  | .obj _ => true
  | _ => false

/-- Python truthiness of a decoded JSON value. -/
def pyTruthy : JVal → Bool
  | .null => false
  | .bool b => b
  | .num n => n != 0
  | .str s => s ≠ ""
  | .arr xs => ¬ xs.isEmpty
  | .obj fs => ¬ fs.isEmpty

/-- Truthiness of a `dict.get` result (`none` — absent key — is `None`). -/
def pyTruthyOpt : Option JVal → Bool
  | some v => pyTruthy v
  | none => false

/-- An absent key and a stored JSON `null` both read back as Python `None`. -/
def pyNoneLike : Option JVal → Bool
  | none => true
  | some .null => true
  | _ => false

/-- Python `str()` of a decoded JSON scalar. Container reprs are not
modelled (no pipeline identifier is a container); they render as `""`. -/
def pyStrOf : JVal → String
  | .null => "None"
  | .bool b => if b then "True" else "False"
  | .num n => toString n
  | .str s => s
  | .arr _ => ""
  | .obj _ => ""

/-- `r.get("schicht") == i` for a decoded group: Python `==` between the
stored value and an `int` (recall `True == 1` in Python). -/
def pyEqIntOpt (o : Option JVal) (n : Int) : Bool :=
  match o with
  | some (.num m) => m == n
  | some (.bool b) => (if b then (1 : Int) else 0) == n
  | _ => false

/-- `_normalize_confidence`: `None` stays unset; otherwise `int(value)`
clamped to `[0, 100]`, with `ValueError`/`TypeError` mapped to unset. -/
def normalize_confidence (value : Option JVal) : Option Int :=
  match value with
  | none => none
  | some .null => none
  | some (.bool b) => some (max 0 (min 100 (if b then (1 : Int) else 0)))
  | some (.num n) => some (max 0 (min 100 n))
  | some (.str s) => (pyIntOfStr s).map (fun n => max 0 (min 100 n))
  | some (.arr _) => none
  | some (.obj _) => none

/-- Python iteration over a decoded value (`for x in v`): lists yield their
elements, strings their characters, dicts their keys; scalars raise
`TypeError` (`none`). -/
def iterElems : JVal → Option (List JVal)
  | .arr xs => some xs
  | .str s => some (s.data.map (fun c => .str (String.mk [c])))
  | .obj fs => some (fs.map (fun kv => JVal.str kv.1))
  | _ => none

/-- One match item of a decoded group: requires an identifier under `"id"`
(if truthy) or `"uuid"`, reads the rationale with default `""` and the
normalized confidence; `none` means the item is skipped. -/
def parseMatchItemFields (fs : List (String × JVal)) : Option MatchResult :=
  let idv := objGet? fs "id"
  let identifier := if pyTruthyOpt idv then idv else objGet? fs "uuid"
  if pyNoneLike identifier then none
  else
    some {
      uuid := String.mk (stripWS (pyStrOf (identifier.getD .null)).data)
      begruendung :=
        match objGet? fs "begruendung" with
        | none => ""
        | some (.str s) => s
        | some v => pyStrOf v
      confidence := normalize_confidence (objGet? fs "confidence") }

/-- The item loop shared by both response parsers: non-dict items and
items without identifiers are skipped. -/
def parseMatchesList (items : List JVal) : List MatchResult :=
  items.foldr
    (fun item acc =>
      match item with
      | .obj fs =>
        match parseMatchItemFields fs with
        | some m => m :: acc
        | none => acc
      | _ => acc)
    []

/-- The group-search loop of `_parse_batch_response`: first element whose
`"schicht"` field equals `n`, by the explicit field, never by position.
Outer `none` models the `AttributeError` raised when a non-dict element
is reached before a match; `some none` means no group carries `n`. -/
def findGroup (n : Int) : List JVal → Option (Option (List (String × JVal)))
  | [] => some none
  | .obj fs :: rest =>
    if pyEqIntOpt (objGet? fs "schicht") n then some (some fs)
    else findGroup n rest
  | _ :: _ => none

/-- Matches of one found group: `schicht_result.get("matches", [])`
iterated through the item loop (`none` on a non-iterable value). -/
def extractGroupMatches (fs : List (String × JVal)) : Option (List MatchResult) :=
  match objGet? fs "matches" with
  | none => some []
  | some v => (iterElems v).map parseMatchesList

/-- The per-group loop of `_parse_batch_response`: `pbGo results rem i`
produces the groups for the `rem` indices `i, …, i + rem - 1` (the Python
loop `for i in range(expected)` entered with `rem` iterations left). -/
def pbGo (results : List JVal) : Nat → Nat → Option (List (List MatchResult))
  | 0, _ => some []
  | rem + 1, i =>
    match findGroup (Int.ofNat (i + 1)) results with
    | none => none
    | some none => (pbGo results rem (i + 1)).map ([] :: ·)
    | some (some fs) =>
      match extractGroupMatches fs with
      | none => none
      | some ms => (pbGo results rem (i + 1)).map (ms :: ·)

/-- Outcome of the textual decoding stage shared by both parsers: the
fence-stripped response is fed to `json.loads`, and on `JSONDecodeError`
a regex extracts the outermost brace-delimited substring containing the
schema key and feeds it to `json.loads` again. `ok d`: the direct load
succeeds with value `d`; `failNoMatch`: the load fails and the regex
finds no candidate (also covers the empty-response early return);
`failMatchOk d`: the load fails but the extracted candidate decodes to
`d`; `failMatchBad`: the extracted candidate itself fails to decode —
this second `json.loads` sits inside the `except` handler unguarded, so
its `JSONDecodeError` propagates out of the parser. -/
inductive DecodeOutcome where
  | ok (d : JVal)
  | failNoMatch
  | failMatchOk (d : JVal)
  | failMatchBad

/-- The post-decode stage of `_parse_batch_response` on decoded data: a
non-dict or a dict without `"results"` yields one empty list per
expected group; otherwise the per-group loop runs (`none` models the
`TypeError` raised when `"results"` is not iterable). -/
def parse_batch_data (d : JVal) (expectedCount : Nat) :
    Option (List (List MatchResult)) :=
  match d with
  | .obj fs =>
    match objGet? fs "results" with
    | none => some (List.replicate expectedCount [])
    | some v =>
      if expectedCount = 0 then some []
      else
        match iterElems v with
        | none => none
        | some elems => pbGo elems expectedCount 0
  | _ => some (List.replicate expectedCount [])

/-- `_parse_batch_response` from the decode outcome on: data obtained
through either load flows into the same post-decode stage, an
undecodable response with no extraction candidate degrades to all-empty
groups, and a candidate that fails the second load raises (`none`). -/
def parse_batch_response (outcome : DecodeOutcome) (expectedCount : Nat) :
    Option (List (List MatchResult)) :=
  match outcome with
  | .ok d => parse_batch_data d expectedCount
  | .failMatchOk d => parse_batch_data d expectedCount
  | .failNoMatch => some (List.replicate expectedCount [])
  | .failMatchBad => none

/-- The post-decode stage of `_parse_response` (single-material mode). -/
def parse_data (d : JVal) : Option (List MatchResult) :=
  match d with
  | .obj fs =>
    match objGet? fs "matches" with
    | none => some []
    | some v => (iterElems v).map parseMatchesList
  | _ => some []

/-- `_parse_response` (single-material mode) from the decode outcome on;
the `except` handler has the same unguarded second `json.loads`. -/
def parse_response (outcome : DecodeOutcome) : Option (List MatchResult) :=
  match outcome with
  | .ok d => parse_data d
  | .failMatchOk d => parse_data d
  | .failNoMatch => some []
  | .failMatchBad => none

/-! ### LLM gateway (`matching/azure_matcher.py`, `_call_azure_api`) -/

/-- Outcome of the underlying Azure chat-completion call: a returned
message content (possibly `None`), or any raised exception. -/
inductive ApiOutcome where
  | ok (content : Option String)
  | failure (ename emsg : String)

/-- `json.dumps({"matches": []})`, the payload substituted on failure. -/
def EMPTY_PAYLOAD : String := "\x7b\"matches\": []\x7d"

/-- The JSON decoding of `EMPTY_PAYLOAD`. -/
def EMPTY_PAYLOAD_decoded : JVal := .obj [("matches", .arr [])]

/-- `_call_azure_api` after the completion call: every exception is caught
and replaced by `EMPTY_PAYLOAD`; an empty or missing content likewise;
otherwise the stripped content is returned. Total by construction — no
outcome escapes as an exception. -/
def call_azure_api (outcome : ApiOutcome) : String :=
  match outcome with
  | .ok (some c) =>
    if c ≠ "" then String.mk (stripWS c.data) else EMPTY_PAYLOAD
  | .ok none => EMPTY_PAYLOAD
  | .failure _ _ => EMPTY_PAYLOAD

/-! ### Batch result aggregation (`matching/azure_matcher.py`,
`match_materials_batch` result formatting, and `main.py`) -/

/-- One material's emitted record: ordered id list and id-to-confidence
map (insertion-ordered, later values overwrite). -/
structure BatchItemResult where
  ids : List String
  confidence : List (String × Int)
  deriving Repr, DecidableEq

/-- Dict insertion with overwrite, keeping first-insertion key order. -/
def dictInsert (m : List (String × Int)) (k : String) (v : Int) :
    List (String × Int) :=
  if m.any (fun kv => kv.1 == k) then
    m.map (fun kv => if kv.1 == k then (k, v) else kv)
  else m ++ [(k, v)]

/-- The `{m["uuid"]: m["confidence"] for m in matches if …}` comprehension
over the full (untruncated) match list. -/
def confidence_map (ms : List MatchResult) : List (String × Int) :=
  ms.foldl
    (fun acc m =>
      match m.confidence with
      | some c => dictInsert acc m.uuid c
      | none => acc)
    []

/-- The result-formatting loop of `match_materials_batch`: per group, the
first `max_results` uuids and the confidence map. -/
def format_batch_results (allMatches : List (List MatchResult))
    (maxResults : Int) : List BatchItemResult :=
  allMatches.map (fun ms =>
    { ids := (pySliceTo ms maxResults).map (·.uuid)
      confidence := confidence_map ms })

/-- Stages 5 and 6 of `match_materials_batch` with confidence validation
enabled: batch validation followed by result formatting. -/
def match_batch_core (parsedMatches : List (List MatchResult))
    (materials : List MaterialInput) (epds : List Entry) (maxResults : Int) :
    Option (List BatchItemResult) :=
  (validate_batch_results parsedMatches materials epds).map
    (format_batch_results · maxResults)

/-- Seen-set recursion of `main.remove_duplicates` (`seen` models the
Python set of already-emitted ids). -/
def rdGo (seen : List String) : List String → List String
  | [] => []
  | x :: rest => if x ∈ seen then rdGo seen rest else x :: rdGo (x :: seen) rest

/-- `main.remove_duplicates`: drop duplicate ids, keeping the first
occurrence (string comparison). -/
def remove_duplicates (ids : List String) : List String :=
  rdGo [] ids

/-! ### Helper lemmas -/

theorem mem_pyInsertDescBy {key : α → Int} {x y : α} {l : List α} :
    y ∈ pyInsertDescBy key x l ↔ y = x ∨ y ∈ l := by
  induction l with
  | nil => simp [pyInsertDescBy]
  | cons z zs ih =>
    simp only [pyInsertDescBy]
    split
    · simp
    · simp [ih]; tauto

theorem mem_pySortDescBy {key : α → Int} {y : α} {l : List α} :
    y ∈ pySortDescBy key l ↔ y ∈ l := by
  induction l with
  | nil => simp [pySortDescBy]
  | cons z zs ih => simp [pySortDescBy, mem_pyInsertDescBy, ih]

theorem sorted_pyInsertDescBy (key : α → Int) (x : α) {l : List α}
    (h : List.Sorted (fun a b => key b ≤ key a) l) :
    List.Sorted (fun a b => key b ≤ key a) (pyInsertDescBy key x l) := by
  induction l with
  | nil => simp [pyInsertDescBy]
  | cons z zs ih =>
    simp only [pyInsertDescBy]
    rcases List.sorted_cons.mp h with ⟨hz, hzs⟩
    split
    · rename_i hle
      refine List.sorted_cons.mpr ⟨?_, h⟩
      intro b hb
      rcases List.mem_cons.mp hb with rfl | hb
      · exact hle
      · exact le_trans (hz b hb) hle
    · rename_i hgt
      refine List.sorted_cons.mpr ⟨?_, ih hzs⟩
      intro b hb
      rcases mem_pyInsertDescBy.mp hb with rfl | hb
      · omega
      · exact hz b hb

theorem sorted_pySortDescBy (key : α → Int) (l : List α) :
    List.Sorted (fun a b => key b ≤ key a) (pySortDescBy key l) := by
  induction l with
  | nil => simp [pySortDescBy]
  | cons z zs ih => exact sorted_pyInsertDescBy key z ih

theorem pySliceTo_sublist (l : List α) (n : Int) : List.Sublist (pySliceTo l n) l := by
  unfold pySliceTo
  split <;> exact List.take_sublist _ _

theorem length_pySliceTo_le (l : List α) {n : Int} (h : 0 ≤ n) :
    ((pySliceTo l n).length : Int) ≤ n := by
  simp only [pySliceTo, if_pos h, List.length_take]
  omega

theorem pySliceTo_eq_self (l : List α) {n : Int} (h : (l.length : Int) ≤ n) :
    pySliceTo l n = l := by
  have h0 : (0 : Int) ≤ n := le_trans (by positivity) h
  simp only [pySliceTo, if_pos h0]
  apply List.take_of_length_le
  omega

theorem rdGo_nodup (seen l) : (rdGo seen l).Nodup ∧ ∀ x ∈ rdGo seen l, x ∉ seen := by
  induction l generalizing seen with
  | nil => simp [rdGo]
  | cons x rest ih =>
    simp only [rdGo]
    split
    · exact ⟨(ih seen).1, (ih seen).2⟩
    · rename_i hx
      refine ⟨List.nodup_cons.mpr ⟨?_, (ih (x :: seen)).1⟩, ?_⟩
      · intro hmem
        have := (ih (x :: seen)).2 x hmem
        simp at this
      · intro y hy
        rcases List.mem_cons.mp hy with rfl | hy
        · exact hx
        · have := (ih (x :: seen)).2 y hy
          intro hcon
          exact this (List.mem_cons_of_mem _ hcon)

theorem rdGo_sublist (seen l) : List.Sublist (rdGo seen l) l := by
  induction l generalizing seen with
  | nil => simp [rdGo]
  | cons x rest ih =>
    simp only [rdGo]
    split
    · exact (ih seen).cons x
    · exact (ih (x :: seen)).cons₂ x

theorem remove_duplicates_nodup (ids : List String) :
    (remove_duplicates ids).Nodup :=
  (rdGo_nodup [] ids).1

theorem remove_duplicates_sublist (ids : List String) :
    List.Sublist (remove_duplicates ids) ids :=
  rdGo_sublist [] ids

theorem mem_rdGo (seen l) : ∀ x, x ∈ rdGo seen l ↔ x ∈ l ∧ x ∉ seen := by
  induction l generalizing seen with
  | nil => simp [rdGo]
  | cons y rest ih =>
    intro x
    simp only [rdGo]
    split
    · rename_i hy
      rw [ih seen x, List.mem_cons]
      constructor
      · rintro ⟨hx, hs⟩
        exact ⟨Or.inr hx, hs⟩
      · rintro ⟨hx | hx, hs⟩
        · subst hx; exact absurd hy hs
        · exact ⟨hx, hs⟩
    · rename_i hy
      rw [List.mem_cons, ih (y :: seen) x]
      simp only [List.mem_cons]
      constructor
      · rintro (rfl | ⟨hx, hs⟩)
        · exact ⟨Or.inl rfl, hy⟩
        · push_neg at hs
          exact ⟨Or.inr hx, hs.2⟩
      · rintro ⟨rfl | hx, hs⟩
        · exact Or.inl rfl
        · by_cases hxy : x = y
          · exact Or.inl hxy
          · exact Or.inr ⟨hx, by simp [hxy, hs]⟩

theorem mem_remove_duplicates (ids : List String) (x : String) :
    x ∈ remove_duplicates ids ↔ x ∈ ids := by
  rw [remove_duplicates, mem_rdGo]
  simp

theorem filterLoop_sublists (sm : String) (tb : List String) (l : List Entry) :
    List.Sublist (filterLoop sm tb l).1 l ∧ List.Sublist (filterLoop sm tb l).2 l := by
  induction l with
  | nil => simp [filterLoop]
  | cons e rest ih =>
    simp only [filterLoop]
    split
    · exact ⟨ih.1.cons e, ih.2.cons e⟩
    · split
      · exact ⟨ih.1.cons e, ih.2.cons e⟩
      · split
        · exact ⟨ih.1.cons₂ e, ih.2.cons e⟩
        · exact ⟨ih.1.cons e, ih.2.cons₂ e⟩

theorem filterLoop_mem_fst (sm : String) (tb : List String) (l : List Entry)
    (e : Entry) (he : e ∈ (filterLoop sm tb l).1) :
    ist_ausgeschlossen (combinedText e) = false ∧
    (ist_generisch_asphalt (combinedText e) = true ∨
      tb.any (fun t => pyIn t (combinedText e)) = true) ∧
    sm ≠ "" ∧ pyIn sm (combinedText e) = true := by
  induction l with
  | nil => simp [filterLoop] at he
  | cons x rest ih =>
    simp only [filterLoop] at he
    split at he
    · exact ih he
    · split at he
      · exact ih he
      · split at he
        · rename_i h1 h2 h3
          rcases List.mem_cons.mp he with rfl | he'
          · refine ⟨by simpa using h1, ?_, h3.1, h3.2⟩
            rcases not_and_or.mp h2 with h | h
            · exact Or.inl (by simpa using not_not.mp h)
            · exact Or.inr (by simpa using not_not.mp h)
          · exact ih he'
        · exact ih he

theorem filterLoop_mem_snd (sm : String) (tb : List String) (l : List Entry)
    (e : Entry) (he : e ∈ (filterLoop sm tb l).2) :
    ist_ausgeschlossen (combinedText e) = false ∧
    (ist_generisch_asphalt (combinedText e) = true ∨
      tb.any (fun t => pyIn t (combinedText e)) = true) := by
  induction l with
  | nil => simp [filterLoop] at he
  | cons x rest ih =>
    simp only [filterLoop] at he
    split at he
    · exact ih he
    · split at he
      · exact ih he
      · split at he
        · exact ih he
        · rename_i h1 h2 h3
          rcases List.mem_cons.mp he with rfl | he'
          · refine ⟨by simpa using h1, ?_⟩
            rcases not_and_or.mp h2 with h | h
            · exact Or.inl (by simpa using not_not.mp h)
            · exact Or.inr (by simpa using not_not.mp h)
          · exact ih he'

/-! ### Claim C1 -/

/-- C1: for every catalog entry, every parsed material classification and
every integer raw confidence, the confidence returned by
`validate_match`'s rule cascade is at most the raw confidence, in every
rule branch (exclusion term, category mismatch, missing layer keyword
with or without matching type, missing type keyword, and the no-rule
branch). -/
theorem C1_validate_match_nonincreasing (epd : Entry) (pm : ParsedMaterial)
    (g : Int) : (validate_match epd pm g).1 ≤ g := by
  unfold validate_match
  simp only []
  repeat' split
  all_goals simp

/-! ### Claim C6 -/

/-- C6 counterexample: malformed LLM output does not always degrade to
an empty match set. A response text that fails `json.loads` but contains
a brace-delimited `"results"` candidate that also fails it — e.g. the
text `x \x7b"results": \x7d x` — hits the unguarded second `json.loads`
inside the `except` handler, whose `JSONDecodeError` propagates out of
`_parse_batch_response` and aborts the batch (modelled `none`); a
response decoding to `\x7b"results": 5\x7d` raises `TypeError` at
`for r in results`; single mode shares the unguarded second load. -/
theorem C6_counterexample :
    parse_batch_response .failMatchBad 1 = none ∧
    parse_batch_response (.ok (.obj [("results", .num 5)])) 1 = none ∧
    parse_response .failMatchBad = none :=
  ⟨rfl, rfl, rfl⟩

/-- C6: the gateway half holds unconditionally — `_call_azure_api` is a
total function of the call outcome, converting every transport or
service failure (and empty content) to the empty-result payload — and
malformed output degrades to empty match sets on the no-fallback-match,
non-dict and missing-key decode paths of both batch and single mode,
the substituted payload itself included; degradation is not total (see
the counterexample). -/
theorem C6_gateway_failsoft (e msg : String) (n : Nat) :
    call_azure_api (.failure e msg) = EMPTY_PAYLOAD ∧
    call_azure_api (.ok none) = EMPTY_PAYLOAD ∧
    parse_batch_response (.ok EMPTY_PAYLOAD_decoded) n = some (List.replicate n []) ∧
    parse_batch_response .failNoMatch n = some (List.replicate n []) ∧
    (∀ d, isObjJ d = false →
      parse_batch_response (.ok d) n = some (List.replicate n [])) ∧
    parse_response (.ok EMPTY_PAYLOAD_decoded) = some [] ∧
    parse_response .failNoMatch = some [] := by
  refine ⟨rfl, rfl, rfl, rfl, ?_, rfl, rfl⟩
  intro d hd
  cases d <;> first | rfl | simp [isObjJ] at hd

theorem C6_witness :
    isObjJ (JVal.str "plain prose, no JSON") = false ∧
    parse_batch_response (.ok (JVal.str "plain prose, no JSON")) 3 =
      some (List.replicate 3 []) := by
  refine ⟨by decide, ?_⟩
  exact (C6_gateway_failsoft "" "" 3).2.2.2.2.1
    (JVal.str "plain prose, no JSON") (by decide)

/-! ### Claim C10 -/

/-- C10: in single-material mode with validation enabled, every candidate
that survives the per-candidate step keeps its parsed rationale unchanged
and never gains an original-confidence record: the corrected confidence
is assigned into the candidate before the inequality test, which
therefore compares the candidate's confidence with itself, so the
annotation branch is unreachable. -/
theorem C10_single_mode_annotation_unreachable (epds : List Entry)
    (pm : ParsedMaterial) (m m' : MatchResult)
    (h : single_validate_step epds pm m = some m') :
    m'.begruendung = m.begruendung ∧
    m'.confidence_original = m.confidence_original ∧
    m' = { m with confidence := m'.confidence } := by
  cases hc : m.confidence with
  | none => rw [single_validate_step, hc] at h; cases h
  | some g =>
    rw [single_validate_step, hc] at h
    dsimp only at h
    rw [if_neg (by simp)] at h
    cases h
    exact ⟨rfl, rfl, rfl⟩

/-- The concrete candidate used to witness C10. -/
def mC10 : MatchResult := { uuid := "x", begruendung := "r", confidence := some 80 }

/-- The concrete classification used to witness C10. -/
def pmC10 : ParsedMaterial := parse_material_input "AC 11 D S" ""

theorem C10_witness :
    single_validate_step [] pmC10 mC10 = some { mC10 with confidence := some 35 } ∧
    ({ mC10 with confidence := some 35 } : MatchResult).begruendung = mC10.begruendung :=
  ⟨by decide, (C10_single_mode_annotation_unreachable [] pmC10 mC10 _ (by decide)).1⟩

/-! ### Claim C9 -/

/-- First pool entry of the C9 counterexample. -/
def eC9a : Entry := { id := "1", name := "Erste Schicht", klassifizierung := "" }

/-- Second pool entry of the C9 counterexample. -/
def eC9b : Entry := { id := "2", name := "Zweite Schicht", klassifizierung := "" }

/-- C9 counterexample: with the (Python `int`) bound `-1`, the pre-filter
returns one entry — Python `epds[:-1]` drops only the last element — so
the combined tier size `1` exceeds the bound `-1` and the size contract
fails as stated for arbitrary integer bounds. -/
theorem C9_counterexample :
    filter_epds_for_material [eC9a, eC9b] (parse_material_input "Beton" "") (-1) =
      some ([eC9a], []) ∧
    ¬ ((([eC9a] : List Entry).length : Int) + (([] : List Entry).length : Int) ≤ -1) := by
  constructor
  · decide
  · decide

/-- C9 (amended to nonnegative bounds): for every pool, classification and
nonnegative `max_per_material`, the primary and secondary tiers returned
by the pre-filter together never exceed the bound, and each tier
preserves the pool's relative order (each is a sublist of the pool). -/
theorem C9_filter_size_and_order (epds : List Entry) (pm : ParsedMaterial)
    (maxEpds : Int) (p s : List Entry) (hmax : 0 ≤ maxEpds)
    (h : filter_epds_for_material epds pm maxEpds = some (p, s)) :
    ((p.length : Int) + (s.length : Int) ≤ maxEpds) ∧
    List.Sublist p epds ∧ List.Sublist s epds := by
  unfold filter_epds_for_material at h
  split at h
  · simp only [Option.some.injEq, Prod.mk.injEq] at h
    obtain ⟨rfl, rfl⟩ := h
    refine ⟨?_, pySliceTo_sublist _ _, List.nil_sublist _⟩
    have := length_pySliceTo_le epds hmax
    simpa using this
  · rcases hsm : pm.schicht_epd_muss_enthalten with _ | sm
    · rw [hsm] at h; exact Option.noConfusion h
    rw [hsm] at h
    rcases htb : typ_suchbegriffe pm with _ | tb
    · rw [htb] at h; exact Option.noConfusion h
    rw [htb] at h
    dsimp only at h
    split at h
    · rename_i hge
      simp only [Option.some.injEq, Prod.mk.injEq] at h
      obtain ⟨rfl, rfl⟩ := h
      have hsub := (filterLoop_sublists (lowerStr sm) tb epds).1
      refine ⟨?_, (pySliceTo_sublist _ _).trans hsub, List.nil_sublist _⟩
      have := length_pySliceTo_le (filterLoop (lowerStr sm) tb epds).1 hmax
      simpa using this
    · rename_i hlt
      simp only [Option.some.injEq, Prod.mk.injEq] at h
      obtain ⟨rfl, rfl⟩ := h
      have hsub1 := (filterLoop_sublists (lowerStr sm) tb epds).1
      have hsub2 := (filterLoop_sublists (lowerStr sm) tb epds).2
      push_neg at hlt
      have h2 : (0 : Int) ≤ maxEpds - ((filterLoop (lowerStr sm) tb epds).1.length : Int) := by
        omega
      have hlen := length_pySliceTo_le (filterLoop (lowerStr sm) tb epds).2 h2
      exact ⟨by omega, hsub1, (pySliceTo_sublist _ _).trans hsub2⟩

theorem C9_witness :
    (0 : Int) ≤ 100 ∧
    filter_epds_for_material [eC9a, eC9b] (parse_material_input "Beton" "") 100 =
      some ([eC9a, eC9b], []) ∧
    ((([eC9a, eC9b] : List Entry).length : Int) + (([] : List Entry).length : Int) ≤ 100) :=
  ⟨by decide, by decide,
    (C9_filter_size_and_order [eC9a, eC9b] (parse_material_input "Beton" "") 100
      [eC9a, eC9b] [] (by decide) (by decide)).1⟩

/-! ### Claim C5 -/

/-- The classification of the C5 counterexample (`SMA 8 S`, type `SMA`,
layer defaulted to `D`, required layer keyword `Deck`). -/
def pmC5 : ParsedMaterial := parse_material_input "SMA 8 S" ""

/-- The pool entry of the C5 counterexample: a generic bitumen entry that
carries no `SMA` type keyword. -/
def eC5 : Entry := { id := "1", name := "Bitumen Deckschicht", klassifizierung := "" }

/-- C5 counterexample: for the paving classification parsed from
`"SMA 8 S"`, an entry whose combined text contains no `SMA` type keyword
still lands in the primary tier, because the generic-asphalt check
(`_ist_generisch_asphalt`, here hit by `bitumen`) lets an entry pass
without any keyword of the classified type. -/
theorem C5_counterexample :
    pmC5.typ = some "SMA" ∧
    filter_epds_for_material [eC5] pmC5 100 = some ([eC5], []) ∧
    ((suchbegriffeOf "SMA").getD []).all
      (fun b => ! pyIn (lowerStr b) (combinedText eC5)) = true := by
  refine ⟨by decide, by decide, by decide⟩

/-- C5 (amended): for every pool and paving classification, an entry is
placed in the primary tier only if its combined text contains the
required layer keyword and either a type keyword of the classified type
or a generic asphalt keyword; and any entry containing a global
exclusion term is absent from both tiers. -/
theorem C5_primary_tier_requirements (epds : List Entry) (pm : ParsedMaterial)
    (maxEpds : Int) (p s : List Entry) (sm : String) (tb : List String)
    (hA : pm.ist_asphalt = true)
    (hsm : pm.schicht_epd_muss_enthalten = some sm)
    (htb : typ_suchbegriffe pm = some tb)
    (h : filter_epds_for_material epds pm maxEpds = some (p, s)) :
    (∀ e ∈ p,
      ist_ausgeschlossen (combinedText e) = false ∧
      (ist_generisch_asphalt (combinedText e) = true ∨
        tb.any (fun t => pyIn t (combinedText e)) = true) ∧
      lowerStr sm ≠ "" ∧ pyIn (lowerStr sm) (combinedText e) = true) ∧
    (∀ e ∈ s, ist_ausgeschlossen (combinedText e) = false) := by
  unfold filter_epds_for_material at h
  rw [if_neg (by simp [hA])] at h
  simp only [hsm, htb] at h
  split at h
  · simp only [Option.some.injEq, Prod.mk.injEq] at h
    obtain ⟨rfl, rfl⟩ := h
    constructor
    · intro e he
      have he' := ((pySliceTo_sublist _ _).subset) he
      exact filterLoop_mem_fst (lowerStr sm) tb epds e he'
    · intro e he
      simp at he
  · simp only [Option.some.injEq, Prod.mk.injEq] at h
    obtain ⟨rfl, rfl⟩ := h
    constructor
    · intro e he
      exact filterLoop_mem_fst (lowerStr sm) tb epds e he
    · intro e he
      have he' := ((pySliceTo_sublist _ _).subset) he
      exact (filterLoop_mem_snd (lowerStr sm) tb epds e he').1

/-- The pool entry of the C5 witness, matching type and layer keywords. -/
def eC5w : Entry := { id := "2", name := "Splittmastixasphalt Deckschicht", klassifizierung := "" }

theorem C5_witness :
    (pmC5.ist_asphalt = true ∧
      pmC5.schicht_epd_muss_enthalten = some "Deck" ∧
      typ_suchbegriffe pmC5 = some (((suchbegriffeOf "SMA").getD []).map lowerStr) ∧
      filter_epds_for_material [eC5w] pmC5 100 = some ([eC5w], [])) ∧
    (∀ e ∈ [eC5w],
      ist_ausgeschlossen (combinedText e) = false ∧
      (ist_generisch_asphalt (combinedText e) = true ∨
        (((suchbegriffeOf "SMA").getD []).map lowerStr).any
          (fun t => pyIn t (combinedText e)) = true) ∧
      lowerStr "Deck" ≠ "" ∧ pyIn (lowerStr "Deck") (combinedText e) = true) :=
  ⟨⟨by decide, by decide, by decide, by decide⟩,
    (C5_primary_tier_requirements [eC5w] pmC5 100 [eC5w] [] "Deck"
      (((suchbegriffeOf "SMA").getD []).map lowerStr)
      (by decide) (by decide) (by decide) (by decide)).1⟩

/-! ### Claim C8 -/

/-- The non-paving classification of the C8 counterexample. -/
def pmC8 : ParsedMaterial := parse_material_input "XPS" ""

/-- The pool entry of the C8 counterexample: a globally excluded concrete
product with no relation to insulation. -/
def eC8 : Entry := { id := "3", name := "Betonpflaster", klassifizierung := "" }

/-- C8 counterexample: for a non-paving classification (here `"XPS"`) the
pre-filter applies no category keyword whitelist and no exclusion list —
a globally excluded concrete-paver entry is passed straight into the
primary tier — and no significant-word secondary tier exists (the
secondary tier is always empty on this branch). -/
theorem C8_counterexample :
    pmC8.ist_asphalt = false ∧
    filter_epds_for_material [eC8] pmC8 100 = some ([eC8], []) ∧
    ist_ausgeschlossen (combinedText eC8) = true := by
  refine ⟨by decide, by decide, by decide⟩

/-- C8 (amended): for every pool and every non-paving classification, the
pre-filter returns the first `max_per_material` pool entries unchanged as
the primary tier and an empty secondary tier; no keyword whitelist and no
exclusion list is applied — in particular, when the bound does not
truncate the pool, every entry, including globally excluded ones, is
returned. -/
theorem C8_nonpaving_passthrough (epds : List Entry) (pm : ParsedMaterial)
    (maxEpds : Int) (h : pm.ist_asphalt = false) :
    filter_epds_for_material epds pm maxEpds = some (pySliceTo epds maxEpds, []) ∧
    ((epds.length : Int) ≤ maxEpds → ∀ e ∈ epds, e ∈ pySliceTo epds maxEpds) := by
  constructor
  · unfold filter_epds_for_material
    rw [if_pos (by simp [h])]
  · intro hlen e he
    rw [pySliceTo_eq_self epds hlen]
    exact he

theorem C8_witness :
    pmC8.ist_asphalt = false ∧
    filter_epds_for_material [eC8] pmC8 100 = some (pySliceTo [eC8] 100, []) :=
  ⟨by decide, (C8_nonpaving_passthrough [eC8] pmC8 100 (by decide)).1⟩

/-! ### Claim C7 -/

theorem validate_one_group_min (pm : ParsedMaterial) (epds : List Entry)
    (l : List MatchResult) :
    ∀ out, validate_one_group pm epds l = some out →
      ∀ m ∈ out, ∃ c, m.confidence = some c ∧ 25 ≤ c := by
  induction l with
  | nil =>
    intro out h m hm
    simp only [validate_one_group, Option.some.injEq] at h
    subst h
    simp at hm
  | cons x rest ih =>
    intro out h m hm
    simp only [validate_one_group] at h
    cases hc : x.confidence with
    | none => rw [hc] at h; exact Option.noConfusion h
    | some g =>
      rw [hc] at h
      dsimp only at h
      split at h
      · exact ih out h m hm
      · rename_i hge
        rcases hrest : validate_one_group pm epds rest with _ | vout
        · rw [hrest] at h; exact Option.noConfusion h
        · rw [hrest] at h
          simp only [Option.map_some', Option.some.injEq] at h
          subst h
          rcases List.mem_cons.mp hm with rfl | hm'
          · refine ⟨(validate_match (epd_by_id epds x.uuid) pm g).1, ?_, by omega⟩
            split <;> rfl
          · exact ih vout hrest m hm'

theorem vbrGo_props (mats : List MaterialInput) (epds : List Entry)
    (mps : List (List MatchResult)) :
    ∀ idx out, vbrGo mats epds idx mps = some out →
      ∀ g ∈ out, (∀ m ∈ g, ∃ c, m.confidence = some c ∧ 25 ≤ c) ∧
        List.Sorted (fun a b => confKey b ≤ confKey a) g := by
  induction mps with
  | nil =>
    intro idx out h g hg
    simp only [vbrGo, Option.some.injEq] at h
    subst h
    simp at hg
  | cons gr grs ih =>
    intro idx out h g hg
    simp only [vbrGo] at h
    split at h
    · exact Option.noConfusion h
    · rename_i vg hvg
      rcases hrest : vbrGo mats epds (idx + 1) grs with _ | vouts
      · rw [hrest] at h; exact Option.noConfusion h
      · rw [hrest] at h
        simp only [Option.map_some', Option.some.injEq] at h
        subst h
        rcases List.mem_cons.mp hg with rfl | hg'
        · constructor
          · intro m hm
            exact validate_one_group_min _ epds gr vg hvg m (mem_pySortDescBy.mp hm)
          · exact sorted_pySortDescBy confKey vg
        · exact ih (idx + 1) vouts hrest g hg'

/-- Candidate of the C7 concrete runs, validated confidence 27. -/
def mC7 : MatchResult := { uuid := "9", begruendung := "ok", confidence := some 27 }

/-- Material input of the C7 concrete runs. -/
def matC7 : MaterialInput := { material_name := "AC 11 D S", name := "" }

/-- Catalog entry of the C7 concrete runs. -/
def eC7 : Entry := { id := "9", name := "Asphaltdeckschicht", klassifizierung := "" }

/-- C7 counterexample: the batch validator's drop threshold is the
hard-coded literal `25`, not the configured minimum — with
`EPD_MIN_CONFIDENCE=30` the configured minimum is `30`, yet a candidate
whose corrected confidence is `27` is still returned. -/
theorem C7_counterexample :
    MIN_CONFIDENCE (some "30") = 30 ∧
    validate_batch_results [[mC7]] [matC7] [eC7] = some [[mC7]] ∧
    ((27 : Int) < 30) :=
  ⟨by decide, by decide, by decide⟩

/-- C7 (amended): batch validation discards every candidate whose
corrected confidence is below the hard-coded threshold `25` (which equals
the default configured minimum, `MIN_CONFIDENCE` with the variable
unset), so every returned candidate carries a confidence of at least
`25`, and each group's remaining candidates are re-sorted by corrected
confidence descending. The threshold does not follow a reconfigured
minimum (see the counterexample). -/
theorem C7_batch_validation_threshold (mps : List (List MatchResult))
    (mats : List MaterialInput) (epds : List Entry)
    (out : List (List MatchResult))
    (h : validate_batch_results mps mats epds = some out) :
    (∀ g ∈ out, ∀ m ∈ g, ∃ c, m.confidence = some c ∧ 25 ≤ c) ∧
    (∀ g ∈ out, List.Sorted (fun a b => confKey b ≤ confKey a) g) ∧
    MIN_CONFIDENCE none = 25 := by
  refine ⟨?_, ?_, rfl⟩
  · intro g hg
    exact (vbrGo_props mats epds mps 0 out h g hg).1
  · intro g hg
    exact (vbrGo_props mats epds mps 0 out h g hg).2

theorem C7_witness :
    validate_batch_results [[mC7]] [matC7] [eC7] = some [[mC7]] ∧
    (∀ g ∈ [[mC7]], ∀ m ∈ g, ∃ c, m.confidence = some c ∧ 25 ≤ c) :=
  ⟨by decide,
    (C7_batch_validation_threshold [[mC7]] [matC7] [eC7] [[mC7]] (by decide)).1⟩

/-! ### Claim C2 -/

/-- Candidate of the C2 concrete runs (returned twice by the model). -/
def mC2 : MatchResult := { uuid := "7", begruendung := "", confidence := some 80 }

/-- Material input of the C2 concrete runs. -/
def matC2 : MaterialInput := { material_name := "AC 11 D S", name := "" }

/-- Catalog entry of the C2 concrete runs. -/
def eC2 : Entry := { id := "7", name := "Asphaltdeckschicht", klassifizierung := "" }

/-- C2 counterexample: `match_materials_batch` itself never deduplicates —
when the model returns the same identifier twice, both copies survive
validation and formatting, and the emitted id list contains the
duplicate. -/
theorem C2_counterexample :
    (match_batch_core [[mC2, mC2]] [matC2] [eC2] 10).map
      (List.map BatchItemResult.ids) = some [["7", "7"]] ∧
    ¬ (["7", "7"] : List String).Nodup :=
  ⟨by decide, by decide⟩

/-- C2 (amended): the batch matcher emits, per material, the validated
candidates ordered confidence-descending and truncated to `max_results`;
deduplication by identifier (string comparison, first occurrence kept) is
performed by the caller in `main.py`, after which the id list is
duplicate-free, order-preserving, with the same id set, and still within
the `max_results` bound. -/
theorem C2_batch_ids_after_dedup (mps : List (List MatchResult))
    (mats : List MaterialInput) (epds : List Entry) (maxResults : Int)
    (groups : List (List MatchResult)) (hmr : 0 ≤ maxResults)
    (h : validate_batch_results mps mats epds = some groups) :
    (∀ g ∈ groups, List.Sorted (fun a b => confKey b ≤ confKey a) g) ∧
    (∀ r ∈ format_batch_results groups maxResults,
      (remove_duplicates r.ids).Nodup ∧
      List.Sublist (remove_duplicates r.ids) r.ids ∧
      (∀ x, x ∈ remove_duplicates r.ids ↔ x ∈ r.ids) ∧
      ((r.ids.length : Int) ≤ maxResults)) := by
  constructor
  · intro g hg
    exact (vbrGo_props mats epds mps 0 groups h g hg).2
  · intro r hr
    refine ⟨remove_duplicates_nodup _, remove_duplicates_sublist _,
      fun x => mem_remove_duplicates _ x, ?_⟩
    simp only [format_batch_results, List.mem_map] at hr
    obtain ⟨ms, hms, rfl⟩ := hr
    simp only [List.length_map]
    exact length_pySliceTo_le _ hmr

/-! ### Claim C4: helper lemmas for the grammar proof -/

/-- The ASCII whitespace characters, as a list for quantification. -/
def wsChars : List Char := [' ', '\t', '\n', '\r', '\x0b', '\x0c']

/-- The ASCII digit characters matched by the grammar's `\d`. -/
def digitChars : List Char :=
  ['0', '1', '2', '3', '4', '5', '6', '7', '8', '9']

theorem ws_char_facts (c : Char) (h : c ∈ wsChars) :
    isPyWS c = true ∧ Char.toUpper c = c ∧ Char.isDigit c = false ∧
    c ≠ 'T' ∧ c ≠ 'B' ∧ c ≠ 'D' ∧ c ≠ 'S' ∧ c ≠ 'N' ∧ c ≠ 'L' := by
  fin_cases h <;> exact ⟨rfl, rfl, rfl, by decide, by decide, by decide,
    by decide, by decide, by decide⟩

theorem digit_char_facts (c : Char) (h : c ∈ digitChars) :
    Char.isDigit c = true ∧ Char.toUpper c = c ∧ isPyWS c = false := by
  fin_cases h <;> exact ⟨rfl, rfl, rfl⟩

theorem map_eq_self_of_fixed {f : Char → Char} {l : List Char}
    (h : ∀ c ∈ l, f c = c) : l.map f = l := by
  induction l with
  | nil => rfl
  | cons c t ih =>
    rw [List.map_cons, h c (List.mem_cons_self c t),
      ih (fun x hx => h x (List.mem_cons_of_mem _ hx))]

theorem dropWhile_append_all {p : Char → Bool} {a : List Char} (b : List Char)
    (h : ∀ c ∈ a, p c = true) : (a ++ b).dropWhile p = b.dropWhile p := by
  induction a with
  | nil => rfl
  | cons c t ih =>
    rw [List.cons_append, List.dropWhile_cons_of_pos (h c (List.mem_cons_self c t))]
    exact ih (fun x hx => h x (List.mem_cons_of_mem _ hx))

theorem dropWhile_of_head_neg {p : Char → Bool} {l : List Char}
    (h : ∀ c, l.head? = some c → p c = false) : l.dropWhile p = l := by
  cases l with
  | nil => rfl
  | cons c t => rw [List.dropWhile_cons_of_neg (by simp [h c rfl])]

theorem takeWhile_append_all {p : Char → Bool} {a : List Char} (b : List Char)
    (h : ∀ c ∈ a, p c = true) : (a ++ b).takeWhile p = a ++ b.takeWhile p := by
  induction a with
  | nil => rfl
  | cons c t ih =>
    rw [List.cons_append, List.takeWhile_cons_of_pos (h c (List.mem_cons_self c t)),
      ih (fun x hx => h x (List.mem_cons_of_mem _ hx)), List.cons_append]

theorem takeWhile_of_head_neg {p : Char → Bool} {l : List Char}
    (h : ∀ c, l.head? = some c → p c = false) : l.takeWhile p = [] := by
  cases l with
  | nil => rfl
  | cons c t => rw [List.takeWhile_cons_of_neg (by simp [h c rfl])]

theorem dropWhile_append_left {p : Char → Bool} {a : List Char} (b : List Char)
    (ha : a.dropWhile p ≠ []) : (a ++ b).dropWhile p = a.dropWhile p ++ b := by
  induction a with
  | nil => simp at ha
  | cons c t ih =>
    by_cases hc : p c
    · rw [List.dropWhile_cons_of_pos hc] at ha
      rw [List.cons_append, List.dropWhile_cons_of_pos hc,
        List.dropWhile_cons_of_pos hc]
      exact ih ha
    · rw [List.cons_append, List.dropWhile_cons_of_neg (by simpa using hc),
        List.dropWhile_cons_of_neg (by simpa using hc), List.cons_append]

theorem stripWS_append_ws (l ws : List Char) (hws : ∀ c ∈ ws, isPyWS c = true) :
    stripWS (l ++ ws) = stripWS l := by
  by_cases hl : l.dropWhile isPyWS = []
  · have hall : ∀ c ∈ l, isPyWS c = true := by
      intro c hc
      exact (List.dropWhile_eq_nil_iff.mp hl) c hc
    unfold stripWS
    rw [dropWhile_append_all ws hall, hl,
      List.dropWhile_eq_nil_iff.mpr (fun c hc => hws c hc)]
  · unfold stripWS
    rw [dropWhile_append_left ws hl, List.reverse_append,
      dropWhile_append_all _ (fun c hc => hws c (List.mem_reverse.mp hc))]

theorem stripWS_exact (ws0 core : List Char)
    (h0 : ∀ c ∈ ws0, isPyWS c = true)
    (hh : ∀ c, core.head? = some c → isPyWS c = false)
    (hl : ∀ c, core.getLast? = some c → isPyWS c = false) :
    stripWS (ws0 ++ core) = core := by
  unfold stripWS
  rw [dropWhile_append_all core h0, dropWhile_of_head_neg hh,
    dropWhile_of_head_neg (fun c hc => hl c (by rwa [List.head?_reverse] at hc)),
    List.reverse_reverse]

theorem forall_head_of_append {P : Char → Prop} {a b : List Char}
    (ha : ∀ c ∈ a, P c) (hb : ∀ c, b.head? = some c → P c) :
    ∀ c, (a ++ b).head? = some c → P c := by
  intro c hc
  cases a with
  | nil => exact hb c hc
  | cons x t =>
    simp only [List.cons_append, List.head?_cons, Option.some.injEq] at hc
    subst hc
    exact ha _ (List.mem_cons_self _ _)

theorem forall_head_of_mem {P : Char → Prop} {l : List Char}
    (h : ∀ c ∈ l, P c) : ∀ c, l.head? = some c → P c := by
  intro c hc
  cases l with
  | nil => simp at hc
  | cons x t =>
    simp only [List.head?_cons, Option.some.injEq] at hc
    subst hc
    exact h _ (List.mem_cons_self _ _)

theorem getLast?_append_right {a b : List Char} (hb : b ≠ []) :
    (a ++ b).getLast? = b.getLast? := by
  rw [List.getLast?_append]
  cases hbl : b.getLast? with
  | none => exact absurd (List.getLast?_eq_none_iff.mp hbl) hb
  | some x => rfl

theorem matchTyp_canonical (t : String) (ht : t ∈ (["AC", "SMA", "MA", "PA"] : List String))
    (r : List Char) : matchTyp (t.data ++ r) = some (t, r) := by
  fin_cases ht
  · rfl
  · rfl
  · rfl
  · rfl

theorem matchLayer_TD (r : List Char) : matchLayer ('T' :: 'D' :: r) = (some "TD", r) := rfl

theorem matchLayer_T (r : List Char) (h : ∀ c, r.head? = some c → c ≠ 'D') :
    matchLayer ('T' :: r) = (some "T", r) := by
  cases r with
  | nil => rfl
  | cons c t =>
    have hc := h c rfl
    simp [matchLayer, List.take, hc]

theorem matchLayer_B (r : List Char) : matchLayer ('B' :: r) = (some "B", r) := rfl

theorem matchLayer_D (r : List Char) : matchLayer ('D' :: r) = (some "D", r) := rfl

theorem matchLayer_none (l : List Char)
    (h : ∀ c, l.head? = some c → c ≠ 'T' ∧ c ≠ 'B' ∧ c ≠ 'D') :
    matchLayer l = (none, l) := by
  cases l with
  | nil => rfl
  | cons c t =>
    obtain ⟨h1, h2, h3⟩ := h c rfl
    simp [matchLayer, List.take, h1, h2, h3]

theorem matchLoad_some (c : Char) (r : List Char)
    (hc : c = 'S' ∨ c = 'N' ∨ c = 'L') :
    matchLoad (c :: r) = (some (String.mk [c]), r) := by
  rcases hc with rfl | rfl | rfl
  · rfl
  · rfl
  · rfl

theorem matchLoad_none (l : List Char)
    (h : ∀ c, l.head? = some c → c ≠ 'S' ∧ c ≠ 'N' ∧ c ≠ 'L') :
    matchLoad l = (none, l) := by
  cases l with
  | nil => rfl
  | cons c t =>
    obtain ⟨h1, h2, h3⟩ := h c rfl
    simp [matchLoad, List.take, h1, h2, h3]

/-- Heads of a nonempty left part determine the head of an append. -/
theorem head_of_append_left {P : Char → Prop} {a : List Char} (b : List Char)
    (ha : ∀ c ∈ a, P c) (hne : a ≠ []) :
    ∀ c, (a ++ b).head? = some c → P c := by
  intro c hc
  cases a with
  | nil => exact absurd rfl hne
  | cons x t =>
    simp only [List.cons_append, List.head?_cons, Option.some.injEq] at hc
    subst hc
    exact ha _ (List.mem_cons_self _ _)

/-- The head of `dropWhile p l` never satisfies `p`. -/
theorem head_dropWhile_false (p : Char → Bool) (l : List Char) :
    ∀ c, (l.dropWhile p).head? = some c → p c = false := by
  induction l with
  | nil => intro c hc; simp at hc
  | cons x t ih =>
    by_cases hx : p x
    · rw [List.dropWhile_cons_of_pos hx]
      exact ih
    · rw [List.dropWhile_cons_of_neg (by simpa using hx)]
      intro c hc
      simp only [List.head?_cons, Option.some.injEq] at hc
      subst hc
      simpa using hx

/-- The load stage of the grammar: after the optional layer, skipping
whitespace and reading the optional `[SNL]` code recovers exactly the
intended load. -/
theorem load_stage (ws3 ws4 : List Char) (load : Option String)
    (h3 : ∀ c ∈ ws3, c ∈ wsChars) (h4 : ∀ c ∈ ws4, c ∈ wsChars)
    (hload : load = none ∨ load = some "S" ∨ load = some "N" ∨ load = some "L") :
    (matchLoad ((ws3 ++ (load.map String.data).getD [] ++ ws4).dropWhile isPyWS)).1 =
      load := by
  have hws3 : ∀ c ∈ ws3, isPyWS c = true := fun c hc => (ws_char_facts c (h3 c hc)).1
  have hws4 : ∀ c ∈ ws4, isPyWS c = true := fun c hc => (ws_char_facts c (h4 c hc)).1
  have hchar : ∀ (c0 : Char), (c0 = 'S' ∨ c0 = 'N' ∨ c0 = 'L') →
      (matchLoad ((ws3 ++ [c0] ++ ws4).dropWhile isPyWS)).1 = some (String.mk [c0]) := by
    intro c0 hc0
    have hc0ws : isPyWS c0 = false := by rcases hc0 with rfl | rfl | rfl <;> rfl
    rw [List.append_assoc, dropWhile_append_all _ hws3,
      show [c0] ++ ws4 = c0 :: ws4 from rfl]
    have hhead : ∀ c, (c0 :: ws4).head? = some c → isPyWS c = false := by
      intro c hc
      simp only [List.head?_cons, Option.some.injEq] at hc
      subst hc
      exact hc0ws
    rw [dropWhile_of_head_neg hhead, matchLoad_some c0 ws4 hc0]
  rcases hload with rfl | rfl | rfl | rfl
  · simp only [Option.map_none', Option.getD_none, List.append_nil]
    rw [dropWhile_append_all ws4 hws3, List.dropWhile_eq_nil_iff.mpr hws4,
      matchLoad_none [] (by intro c hc; simp at hc)]
  · exact hchar 'S' (Or.inl rfl)
  · exact hchar 'N' (Or.inr (Or.inl rfl))
  · exact hchar 'L' (Or.inr (Or.inr rfl))

/-- The layer and load stages of the grammar combined: from the remainder
after the grain digits, the optional `(TD|T|B|D)` and `([SNL])` groups
recover exactly the intended layer and load. -/
theorem layer_load_stage (ws2 ws3 ws4 : List Char) (layer load : Option String)
    (h2 : ∀ c ∈ ws2, c ∈ wsChars) (h3 : ∀ c ∈ ws3, c ∈ wsChars)
    (h4 : ∀ c ∈ ws4, c ∈ wsChars)
    (hlayer : layer = none ∨ layer = some "T" ∨ layer = some "B" ∨
      layer = some "D" ∨ layer = some "TD")
    (hload : load = none ∨ load = some "S" ∨ load = some "N" ∨ load = some "L") :
    (matchLayer ((ws2 ++ (layer.map String.data).getD [] ++ ws3 ++
        (load.map String.data).getD [] ++ ws4).dropWhile isPyWS)).1 = layer ∧
    (matchLoad (((matchLayer ((ws2 ++ (layer.map String.data).getD [] ++ ws3 ++
        (load.map String.data).getD [] ++ ws4).dropWhile isPyWS)).2).dropWhile
        isPyWS)).1 = load := by
  have hws2 : ∀ c ∈ ws2, isPyWS c = true := fun c hc => (ws_char_facts c (h2 c hc)).1
  have hws3 : ∀ c ∈ ws3, isPyWS c = true := fun c hc => (ws_char_facts c (h3 c hc)).1
  have hws4 : ∀ c ∈ ws4, isPyWS c = true := fun c hc => (ws_char_facts c (h4 c hc)).1
  have hrest_mem : ∀ c ∈ ws3 ++ (load.map String.data).getD [] ++ ws4,
      c ∈ wsChars ∨ c = 'S' ∨ c = 'N' ∨ c = 'L' := by
    intro c hc
    simp only [List.mem_append] at hc
    rcases hc with (hc | hc) | hc
    · exact Or.inl (h3 c hc)
    · rcases hload with rfl | rfl | rfl | rfl <;> simp at hc <;> simp [hc]
    · exact Or.inl (h4 c hc)
  have hrestTBD : ∀ c ∈ ws3 ++ (load.map String.data).getD [] ++ ws4,
      c ≠ 'T' ∧ c ≠ 'B' ∧ c ≠ 'D' := by
    intro c hc
    rcases hrest_mem c hc with h | h | h | h
    · have hf := ws_char_facts c h
      exact ⟨hf.2.2.2.1, hf.2.2.2.2.1, hf.2.2.2.2.2.1⟩
    · subst h; exact ⟨by decide, by decide, by decide⟩
    · subst h; exact ⟨by decide, by decide, by decide⟩
    · subst h; exact ⟨by decide, by decide, by decide⟩
  have hloadTail : (matchLoad ((ws3 ++ (load.map String.data).getD [] ++
      ws4).dropWhile isPyWS)).1 = load := load_stage ws3 ws4 load h3 h4 hload
  have hlayChar : ∀ (lc : List Char), lc ≠ [] →
      (∀ c ∈ lc, isPyWS c = false) →
      (ws2 ++ lc ++ ws3 ++ (load.map String.data).getD [] ++ ws4).dropWhile isPyWS =
        lc ++ (ws3 ++ (load.map String.data).getD [] ++ ws4) := by
    intro lc hne hlcws
    rw [show ws2 ++ lc ++ ws3 ++ (load.map String.data).getD [] ++ ws4 =
        ws2 ++ (lc ++ (ws3 ++ (load.map String.data).getD [] ++ ws4)) from by
      simp [List.append_assoc]]
    rw [dropWhile_append_all _ hws2,
      dropWhile_of_head_neg (head_of_append_left _ hlcws hne)]
  rcases hlayer with rfl | rfl | rfl | rfl | rfl
  · have hall : (ws2 ++ ([] : List Char) ++ ws3 ++ (load.map String.data).getD [] ++
        ws4).dropWhile isPyWS =
        (ws3 ++ (load.map String.data).getD [] ++ ws4).dropWhile isPyWS := by
      rw [show ws2 ++ ([] : List Char) ++ ws3 ++ (load.map String.data).getD [] ++ ws4 =
          ws2 ++ (ws3 ++ (load.map String.data).getD [] ++ ws4) from by
        simp [List.append_assoc]]
      exact dropWhile_append_all _ hws2
    simp only [Option.map_none', Option.getD_none]
    rw [hall]
    rw [matchLayer_none _ (fun c hc =>
      hrestTBD c ((List.dropWhile_sublist _).subset (by
        have : c ∈ (ws3 ++ (load.map String.data).getD [] ++ ws4).dropWhile isPyWS := by
          cases hzz : (ws3 ++ (load.map String.data).getD [] ++ ws4).dropWhile isPyWS with
          | nil => rw [hzz] at hc; simp at hc
          | cons y u =>
            rw [hzz] at hc
            simp only [List.head?_cons, Option.some.injEq] at hc
            subst hc
            exact List.mem_cons_self _ _
        exact this)))]
    refine ⟨rfl, ?_⟩
    rw [dropWhile_of_head_neg (fun c hc => head_dropWhile_false isPyWS _ c hc)]
    exact hloadTail
  · rw [show ((some "T").map String.data).getD [] = ['T'] from rfl,
      hlayChar ['T'] (by decide) (by decide),
      show (['T'] : List Char) ++ (ws3 ++ (load.map String.data).getD [] ++ ws4) =
        'T' :: (ws3 ++ (load.map String.data).getD [] ++ ws4) from rfl,
      matchLayer_T _ (forall_head_of_mem (fun c hc => (hrestTBD c hc).2.2))]
    exact ⟨rfl, hloadTail⟩
  · rw [show ((some "B").map String.data).getD [] = ['B'] from rfl,
      hlayChar ['B'] (by decide) (by decide),
      show (['B'] : List Char) ++ (ws3 ++ (load.map String.data).getD [] ++ ws4) =
        'B' :: (ws3 ++ (load.map String.data).getD [] ++ ws4) from rfl,
      matchLayer_B]
    exact ⟨rfl, hloadTail⟩
  · rw [show ((some "D").map String.data).getD [] = ['D'] from rfl,
      hlayChar ['D'] (by decide) (by decide),
      show (['D'] : List Char) ++ (ws3 ++ (load.map String.data).getD [] ++ ws4) =
        'D' :: (ws3 ++ (load.map String.data).getD [] ++ ws4) from rfl,
      matchLayer_D]
    exact ⟨rfl, hloadTail⟩
  · rw [show ((some "TD").map String.data).getD [] = ['T', 'D'] from rfl,
      hlayChar ['T', 'D'] (by decide) (by decide),
      show (['T', 'D'] : List Char) ++ (ws3 ++ (load.map String.data).getD [] ++ ws4) =
        'T' :: 'D' :: (ws3 ++ (load.map String.data).getD [] ++ ws4) from rfl,
      matchLayer_TD]
    exact ⟨rfl, hloadTail⟩

/-- The whitespace-skip and grain stage of the grammar. -/
theorem digits_stage (ws1 ds tail : List Char)
    (h1 : ∀ c ∈ ws1, c ∈ wsChars) (hne : ds ≠ [])
    (hd : ∀ c ∈ ds, c ∈ digitChars)
    (htail : ∀ c ∈ tail, Char.isDigit c = false) :
    (ws1 ++ (ds ++ tail)).dropWhile isPyWS = ds ++ tail ∧
    (ds ++ tail).takeWhile Char.isDigit = ds ∧
    (ds ++ tail).dropWhile Char.isDigit = tail := by
  have hws1 : ∀ c ∈ ws1, isPyWS c = true := fun c hc => (ws_char_facts c (h1 c hc)).1
  have hdd : ∀ c ∈ ds, Char.isDigit c = true :=
    fun c hc => (digit_char_facts c (hd c hc)).1
  have hdw : ∀ c ∈ ds, isPyWS c = false :=
    fun c hc => (digit_char_facts c (hd c hc)).2.2
  refine ⟨?_, ?_, ?_⟩
  · rw [dropWhile_append_all _ hws1,
      dropWhile_of_head_neg (head_of_append_left _ hdw hne)]
  · rw [takeWhile_append_all _ hdd,
      takeWhile_of_head_neg (forall_head_of_mem htail), List.append_nil]
  · rw [dropWhile_append_all _ hdd,
      dropWhile_of_head_neg (forall_head_of_mem htail)]

theorem typ_data_facts (t : String)
    (ht : t ∈ (["AC", "SMA", "MA", "PA"] : List String)) :
    t.data ≠ [] ∧ (∀ c ∈ t.data, Char.toUpper c = c) ∧
    (∀ c ∈ t.data, isPyWS c = false) ∧ (∀ c ∈ t.data, Char.isDigit c = false) := by
  fin_cases ht <;> exact ⟨by decide, by decide, by decide, by decide⟩

/-- Core of the grammar claim: whenever the upper-cased, stripped input
decomposes into type token, whitespace, grain digits, optional layer and
load tokens, the parser returns exactly the implied fields, with the
layer defaulting to `D` for the layer-less families. -/
theorem parse_canonical_core (inputStr : String) (t : String)
    (ws1 ws2 ws3 ws4 ds : List Char) (layer load : Option String)
    (ht : t ∈ (["AC", "SMA", "MA", "PA"] : List String))
    (h1 : ∀ c ∈ ws1, c ∈ wsChars) (h2 : ∀ c ∈ ws2, c ∈ wsChars)
    (h3 : ∀ c ∈ ws3, c ∈ wsChars) (h4 : ∀ c ∈ ws4, c ∈ wsChars)
    (hne : ds ≠ []) (hd : ∀ c ∈ ds, c ∈ digitChars)
    (hlayer : layer = none ∨ layer = some "T" ∨ layer = some "B" ∨
      layer = some "D" ∨ layer = some "TD")
    (hload : load = none ∨ load = some "S" ∨ load = some "N" ∨ load = some "L")
    (hstrip : stripWS (inputStr.data.map Char.toUpper) =
      t.data ++ (ws1 ++ (ds ++ (ws2 ++ (layer.map String.data).getD [] ++ ws3 ++
        (load.map String.data).getD [] ++ ws4)))) :
    (parse_normierte_bezeichnung inputStr).map
      (fun r => (r.typ, r.groesstkorn_mm, r.schicht, r.beanspruchung)) =
    some (t, digitsVal ds,
      if (t = "SMA" ∨ t = "MA" ∨ t = "PA") ∧ layer = none then some "D" else layer,
      load) := by
  obtain ⟨hlay1, hlay2⟩ := layer_load_stage ws2 ws3 ws4 layer load h2 h3 h4 hlayer hload
  have htail_nodigit : ∀ c ∈ ws2 ++ (layer.map String.data).getD [] ++ ws3 ++
      (load.map String.data).getD [] ++ ws4, Char.isDigit c = false := by
    intro c hc
    simp only [List.mem_append] at hc
    rcases hc with (((hc | hc) | hc) | hc) | hc
    · exact (ws_char_facts c (h2 c hc)).2.2.1
    · rcases hlayer with rfl | rfl | rfl | rfl | rfl
      · simp at hc
      · simp at hc; subst hc; decide
      · simp at hc; subst hc; decide
      · simp at hc; subst hc; decide
      · simp at hc; rcases hc with rfl | rfl <;> decide
    · exact (ws_char_facts c (h3 c hc)).2.2.1
    · rcases hload with rfl | rfl | rfl | rfl
      · simp at hc
      · simp at hc; subst hc; decide
      · simp at hc; subst hc; decide
      · simp at hc; subst hc; decide
    · exact (ws_char_facts c (h4 c hc)).2.2.1
  obtain ⟨hdrop, htake, hdrop2⟩ :=
    digits_stage ws1 ds _ h1 hne hd htail_nodigit
  have hnotempty : ds.isEmpty = false := by
    cases ds with
    | nil => exact absurd rfl hne
    | cons c l => rfl
  simp only [parse_normierte_bezeichnung, hstrip, matchTyp_canonical t ht,
    hdrop, htake, hnotempty, Bool.false_eq_true, if_false, hdrop2]
  simp only [hlay1, hlay2, Option.map_some', Option.some.injEq]

theorem stripWS_ws_append (ws l : List Char) (hws : ∀ c ∈ ws, isPyWS c = true) :
    stripWS (ws ++ l) = stripWS l := by
  unfold stripWS
  rw [dropWhile_append_all _ hws]

theorem stripWS_eq_self (l : List Char)
    (hh : ∀ c, l.head? = some c → isPyWS c = false)
    (hl : ∀ c, l.getLast? = some c → isPyWS c = false) : stripWS l = l := by
  unfold stripWS
  rw [dropWhile_of_head_neg hh,
    dropWhile_of_head_neg (fun c hc => hl c (by rwa [List.head?_reverse] at hc)),
    List.reverse_reverse]

theorem append_ne_nil {a : List Char} (b : List Char) (h : a ≠ []) : a ++ b ≠ [] := by
  cases a with
  | nil => exact absurd rfl h
  | cons x t => simp

theorem head_eq_of_left {a : List Char} (b : List Char) (hne : a ≠ []) :
    (a ++ b).head? = a.head? := by
  cases a with
  | nil => exact absurd rfl hne
  | cons x t => rfl

theorem mem_of_getLast?' : ∀ (l : List Char) (c : Char), l.getLast? = some c → c ∈ l
  | [], c, h => by simp at h
  | [x], c, h => by
    simp only [List.getLast?_singleton, Option.some.injEq] at h
    simp [h]
  | x :: y :: t, c, h => by
    rw [List.getLast?_cons_cons] at h
    exact List.mem_cons_of_mem _ (mem_of_getLast?' (y :: t) c h)

/-- C4: parsing of the strict grammar `TYPE GRAIN [LAYER] [LOAD]` is
insensitive to letter case (inputs with the same upper-casing parse
identically) and to the amount of whitespace around each token, and
yields exactly the implied type, grain, layer and load fields; for a
layer-less family (`SMA`, `MA`, `PA`) with no explicit layer the layer
defaults to the top code `D`. -/
theorem C4_grammar_parse :
    (∀ s1 s2 : String, s1.data.map Char.toUpper = s2.data.map Char.toUpper →
      parse_normierte_bezeichnung s1 = parse_normierte_bezeichnung s2) ∧
    (∀ (ws0 ws1 ws2 ws3 ws4 ds : List Char) (t : String) (layer load : Option String),
      (∀ c ∈ ws0, c ∈ wsChars) → (∀ c ∈ ws1, c ∈ wsChars) →
      (∀ c ∈ ws2, c ∈ wsChars) → (∀ c ∈ ws3, c ∈ wsChars) →
      (∀ c ∈ ws4, c ∈ wsChars) →
      t ∈ (["AC", "SMA", "MA", "PA"] : List String) →
      ds ≠ [] → (∀ c ∈ ds, c ∈ digitChars) →
      (layer = none ∨ layer = some "T" ∨ layer = some "B" ∨ layer = some "D" ∨
        layer = some "TD") →
      (load = none ∨ load = some "S" ∨ load = some "N" ∨ load = some "L") →
      (parse_normierte_bezeichnung (String.mk
        (ws0 ++ t.data ++ ws1 ++ ds ++ ws2 ++ (layer.map String.data).getD [] ++
          ws3 ++ (load.map String.data).getD [] ++ ws4))).map
        (fun r => (r.typ, r.groesstkorn_mm, r.schicht, r.beanspruchung)) =
      some (t, digitsVal ds,
        if (t = "SMA" ∨ t = "MA" ∨ t = "PA") ∧ layer = none then some "D" else layer,
        load)) := by
  constructor
  · intro s1 s2 h
    have hpm : ist_polymermodifiziert s1 = ist_polymermodifiziert s2 := by
      unfold ist_polymermodifiziert upperStr
      rw [h]
    unfold parse_normierte_bezeichnung
    rw [h, hpm]
  · intro ws0 ws1 ws2 ws3 ws4 ds t layer load h0 h1 h2 h3 h4 ht hne hd hlayer hload
    have htyF := typ_data_facts t ht
    have hws0 : ∀ c ∈ ws0, isPyWS c = true := fun c hc => (ws_char_facts c (h0 c hc)).1
    have hws2 : ∀ c ∈ ws2, isPyWS c = true := fun c hc => (ws_char_facts c (h2 c hc)).1
    have hws3 : ∀ c ∈ ws3, isPyWS c = true := fun c hc => (ws_char_facts c (h3 c hc)).1
    have hws4 : ∀ c ∈ ws4, isPyWS c = true := fun c hc => (ws_char_facts c (h4 c hc)).1
    have hlayerChars : ∀ c ∈ (layer.map String.data).getD [],
        Char.toUpper c = c ∧ isPyWS c = false := by
      rcases hlayer with rfl | rfl | rfl | rfl | rfl <;> decide
    have hloadChars : ∀ c ∈ (load.map String.data).getD [],
        Char.toUpper c = c ∧ isPyWS c = false := by
      rcases hload with rfl | rfl | rfl | rfl <;> decide
    have hfix : (ws0 ++ t.data ++ ws1 ++ ds ++ ws2 ++ (layer.map String.data).getD [] ++
        ws3 ++ (load.map String.data).getD [] ++ ws4).map Char.toUpper =
        ws0 ++ t.data ++ ws1 ++ ds ++ ws2 ++ (layer.map String.data).getD [] ++
        ws3 ++ (load.map String.data).getD [] ++ ws4 := by
      apply map_eq_self_of_fixed
      intro c hc
      simp only [List.mem_append] at hc
      rcases hc with (((((((hc | hc) | hc) | hc) | hc) | hc) | hc) | hc) | hc
      · exact (ws_char_facts c (h0 c hc)).2.1
      · exact htyF.2.1 c hc
      · exact (ws_char_facts c (h1 c hc)).2.1
      · exact (digit_char_facts c (hd c hc)).2.1
      · exact (ws_char_facts c (h2 c hc)).2.1
      · exact (hlayerChars c hc).1
      · exact (ws_char_facts c (h3 c hc)).2.1
      · exact (hloadChars c hc).1
      · exact (ws_char_facts c (h4 c hc)).2.1
    have mainFinish : ∀ (ws2' ws3' ws4' : List Char),
        (∀ c ∈ ws2', c ∈ wsChars) → (∀ c ∈ ws3', c ∈ wsChars) →
        (∀ c ∈ ws4', c ∈ wsChars) →
        stripWS (ws0 ++ t.data ++ ws1 ++ ds ++ ws2 ++ (layer.map String.data).getD [] ++
          ws3 ++ (load.map String.data).getD [] ++ ws4) =
          t.data ++ (ws1 ++ (ds ++ (ws2' ++ (layer.map String.data).getD [] ++ ws3' ++
            (load.map String.data).getD [] ++ ws4'))) →
        (parse_normierte_bezeichnung (String.mk
          (ws0 ++ t.data ++ ws1 ++ ds ++ ws2 ++ (layer.map String.data).getD [] ++
            ws3 ++ (load.map String.data).getD [] ++ ws4))).map
          (fun r => (r.typ, r.groesstkorn_mm, r.schicht, r.beanspruchung)) =
        some (t, digitsVal ds,
          if (t = "SMA" ∨ t = "MA" ∨ t = "PA") ∧ layer = none then some "D" else layer,
          load) := by
      intro ws2' ws3' ws4' g2 g3 g4 hstrip
      refine parse_canonical_core _ t ws1 ws2' ws3' ws4' ds layer load ht h1 g2 g3 g4
        hne hd hlayer hload ?_
      rw [show (String.mk (ws0 ++ t.data ++ ws1 ++ ds ++ ws2 ++
          (layer.map String.data).getD [] ++ ws3 ++ (load.map String.data).getD [] ++
          ws4)).data = ws0 ++ t.data ++ ws1 ++ ds ++ ws2 ++
          (layer.map String.data).getD [] ++ ws3 ++ (load.map String.data).getD [] ++
          ws4 from rfl, hfix]
      exact hstrip
    have coreStrip : ∀ (rest : List Char) (c0 : Char), isPyWS c0 = false →
        stripWS (ws0 ++ ((t.data ++ rest) ++ [c0])) = (t.data ++ rest) ++ [c0] := by
      intro rest c0 hc0
      rw [stripWS_ws_append _ _ hws0]
      apply stripWS_eq_self
      · intro c hc
        rw [head_eq_of_left _ (append_ne_nil rest htyF.1), head_eq_of_left rest htyF.1] at hc
        exact forall_head_of_mem htyF.2.2.1 c hc
      · intro c hc
        rw [List.getLast?_concat] at hc
        simp only [Option.some.injEq] at hc
        subst hc
        exact hc0
    have bothNoneCore : stripWS (ws0 ++ (t.data ++ ws1 ++ ds)) = t.data ++ ws1 ++ ds := by
      rw [stripWS_ws_append _ _ hws0]
      apply stripWS_eq_self
      · intro c hc
        rw [show t.data ++ ws1 ++ ds = t.data ++ (ws1 ++ ds) from by
          simp [List.append_assoc], head_eq_of_left _ htyF.1] at hc
        exact forall_head_of_mem htyF.2.2.1 c hc
      · intro c hc
        rw [getLast?_append_right hne] at hc
        have hm := mem_of_getLast?' ds c hc
        exact (digit_char_facts c (hd c hm)).2.2
    rcases hload with rfl | rfl | rfl | rfl
    · rcases hlayer with rfl | rfl | rfl | rfl | rfl
      · refine mainFinish [] [] [] (by simp) (by simp) (by simp) ?_
        simp only [show ((none : Option String).map String.data).getD [] =
          ([] : List Char) from rfl, List.append_nil]
        rw [stripWS_append_ws _ ws4 hws4, stripWS_append_ws _ ws3 hws3,
          stripWS_append_ws _ ws2 hws2,
          show ws0 ++ t.data ++ ws1 ++ ds = ws0 ++ (t.data ++ ws1 ++ ds) from by
            simp [List.append_assoc], bothNoneCore]
        simp [List.append_assoc]
      · refine mainFinish ws2 [] [] h2 (by simp) (by simp) ?_
        simp only [show ((none : Option String).map String.data).getD [] =
          ([] : List Char) from rfl,
          show ((some "T").map String.data).getD [] = ['T'] from rfl, List.append_nil]
        rw [stripWS_append_ws _ ws4 hws4, stripWS_append_ws _ ws3 hws3,
          show ws0 ++ t.data ++ ws1 ++ ds ++ ws2 ++ ['T'] =
            ws0 ++ ((t.data ++ (ws1 ++ (ds ++ ws2))) ++ ['T']) from by
            simp [List.append_assoc],
          coreStrip _ 'T' (by decide)]
        simp [List.append_assoc]
      · refine mainFinish ws2 [] [] h2 (by simp) (by simp) ?_
        simp only [show ((none : Option String).map String.data).getD [] =
          ([] : List Char) from rfl,
          show ((some "B").map String.data).getD [] = ['B'] from rfl, List.append_nil]
        rw [stripWS_append_ws _ ws4 hws4, stripWS_append_ws _ ws3 hws3,
          show ws0 ++ t.data ++ ws1 ++ ds ++ ws2 ++ ['B'] =
            ws0 ++ ((t.data ++ (ws1 ++ (ds ++ ws2))) ++ ['B']) from by
            simp [List.append_assoc],
          coreStrip _ 'B' (by decide)]
        simp [List.append_assoc]
      · refine mainFinish ws2 [] [] h2 (by simp) (by simp) ?_
        simp only [show ((none : Option String).map String.data).getD [] =
          ([] : List Char) from rfl,
          show ((some "D").map String.data).getD [] = ['D'] from rfl, List.append_nil]
        rw [stripWS_append_ws _ ws4 hws4, stripWS_append_ws _ ws3 hws3,
          show ws0 ++ t.data ++ ws1 ++ ds ++ ws2 ++ ['D'] =
            ws0 ++ ((t.data ++ (ws1 ++ (ds ++ ws2))) ++ ['D']) from by
            simp [List.append_assoc],
          coreStrip _ 'D' (by decide)]
        simp [List.append_assoc]
      · refine mainFinish ws2 [] [] h2 (by simp) (by simp) ?_
        simp only [show ((none : Option String).map String.data).getD [] =
          ([] : List Char) from rfl,
          show ((some "TD").map String.data).getD [] = ['T', 'D'] from rfl, List.append_nil]
        rw [stripWS_append_ws _ ws4 hws4, stripWS_append_ws _ ws3 hws3,
          show ws0 ++ t.data ++ ws1 ++ ds ++ ws2 ++ ['T', 'D'] =
            ws0 ++ ((t.data ++ (ws1 ++ (ds ++ (ws2 ++ ['T'])))) ++ ['D']) from by
            simp [List.append_assoc],
          coreStrip _ 'D' (by decide)]
        simp [List.append_assoc]
    · refine mainFinish ws2 ws3 [] h2 h3 (by simp) ?_
      simp only [show ((some "S").map String.data).getD [] = ['S'] from rfl]
      rw [stripWS_append_ws _ ws4 hws4,
        show ws0 ++ t.data ++ ws1 ++ ds ++ ws2 ++ (layer.map String.data).getD [] ++
          ws3 ++ ['S'] = ws0 ++ ((t.data ++ (ws1 ++ (ds ++ (ws2 ++
          ((layer.map String.data).getD [] ++ ws3))))) ++ ['S']) from by
          simp [List.append_assoc],
        coreStrip _ 'S' (by decide)]
      simp [List.append_assoc]
    · refine mainFinish ws2 ws3 [] h2 h3 (by simp) ?_
      simp only [show ((some "N").map String.data).getD [] = ['N'] from rfl]
      rw [stripWS_append_ws _ ws4 hws4,
        show ws0 ++ t.data ++ ws1 ++ ds ++ ws2 ++ (layer.map String.data).getD [] ++
          ws3 ++ ['N'] = ws0 ++ ((t.data ++ (ws1 ++ (ds ++ (ws2 ++
          ((layer.map String.data).getD [] ++ ws3))))) ++ ['N']) from by
          simp [List.append_assoc],
        coreStrip _ 'N' (by decide)]
      simp [List.append_assoc]
    · refine mainFinish ws2 ws3 [] h2 h3 (by simp) ?_
      simp only [show ((some "L").map String.data).getD [] = ['L'] from rfl]
      rw [stripWS_append_ws _ ws4 hws4,
        show ws0 ++ t.data ++ ws1 ++ ds ++ ws2 ++ (layer.map String.data).getD [] ++
          ws3 ++ ['L'] = ws0 ++ ((t.data ++ (ws1 ++ (ds ++ (ws2 ++
          ((layer.map String.data).getD [] ++ ws3))))) ++ ['L']) from by
          simp [List.append_assoc],
        coreStrip _ 'L' (by decide)]
      simp [List.append_assoc]

theorem C4_witness :
    ((∀ c ∈ ([' '] : List Char), c ∈ wsChars) ∧
      ("AC" : String) ∈ (["AC", "SMA", "MA", "PA"] : List String) ∧
      (['1', '6'] : List Char) ≠ [] ∧ (∀ c ∈ (['1', '6'] : List Char), c ∈ digitChars) ∧
      "ac 16 td s".data.map Char.toUpper = "AC 16 TD S".data.map Char.toUpper) ∧
    (parse_normierte_bezeichnung (String.mk
      ([] ++ "AC".data ++ [' '] ++ ['1', '6'] ++ [' '] ++
        (((some "TD" : Option String)).map String.data).getD [] ++ [' '] ++
        (((some "S" : Option String)).map String.data).getD [] ++ []))).map
      (fun r => (r.typ, r.groesstkorn_mm, r.schicht, r.beanspruchung)) =
    some ("AC", digitsVal ['1', '6'],
      if (("AC" : String) = "SMA" ∨ ("AC" : String) = "MA" ∨ ("AC" : String) = "PA") ∧
        (some "TD" : Option String) = none then some "D" else some "TD", some "S") ∧
    parse_normierte_bezeichnung "ac 16 td s" = parse_normierte_bezeichnung "AC 16 TD S" :=
  ⟨⟨by decide, by decide, by decide, by decide, by decide⟩,
    C4_grammar_parse.2 [] [' '] [' '] [' '] [] ['1', '6'] "AC" (some "TD") (some "S")
      (by decide) (by decide) (by decide) (by decide) (by decide) (by decide)
      (by decide) (by decide) (by decide) (by decide),
    C4_grammar_parse.1 "ac 16 td s" "AC 16 TD S" (by decide)⟩

/-! ### Claim C3 -/

/-- Whether a decoded element's explicit `"schicht"` field equals the
group number `k` under Python `==`. -/
def groupNumIs (e : JVal) (k : Int) : Bool :=
  match e with
  | .obj fs => pyEqIntOpt (objGet? fs "schicht") k
  | _ => false

/-- Fields of an object element (only applied to objects). -/
def fieldsOf : JVal → List (String × JVal)
  | .obj fs => fs
  | _ => []

/-- A decoded batch response carrying the given `"results"` array. -/
def batchData (rs : List JVal) : JVal := .obj [("results", .arr rs)]

/-- What the batch parser assigns to the group numbered `k`: the matches
of the first element whose explicit `"schicht"` field equals `k`, the
empty list when no element carries `k`. -/
def groupParse (rs : List JVal) (k : Int) : Option (List MatchResult) :=
  match findGroup k rs with
  | none => none
  | some none => some []
  | some (some fs) => extractGroupMatches fs

theorem findGroup_eq_find? (k : Int) (rs : List JVal)
    (hobj : ∀ e ∈ rs, isObjJ e = true) :
    findGroup k rs = some ((rs.find? (fun e => groupNumIs e k)).map fieldsOf) := by
  induction rs with
  | nil => simp [findGroup]
  | cons e rest ih =>
    have hhead := hobj e (List.mem_cons_self e rest)
    have htail : ∀ x ∈ rest, isObjJ x = true :=
      fun x hx => hobj x (List.mem_cons_of_mem _ hx)
    cases e with
    | obj fs =>
      by_cases hk : pyEqIntOpt (objGet? fs "schicht") k
      · rw [List.find?_cons_of_pos _ (by simpa [groupNumIs] using hk)]
        simp [findGroup, hk, fieldsOf]
      · rw [List.find?_cons_of_neg _ (by simpa [groupNumIs] using hk)]
        simp only [findGroup, if_neg hk]
        exact ih htail
    | null => simp [isObjJ] at hhead
    | bool b => simp [isObjJ] at hhead
    | num m => simp [isObjJ] at hhead
    | str s => simp [isObjJ] at hhead
    | arr xs => simp [isObjJ] at hhead

theorem find?_eq_head?_filter (p : α → Bool) (l : List α) :
    l.find? p = (l.filter p).head? := by
  induction l with
  | nil => simp
  | cons e rest ih =>
    by_cases hp : p e
    · rw [List.find?_cons_of_pos _ hp, List.filter_cons_of_pos hp]
      rfl
    · rw [List.find?_cons_of_neg _ (by simpa using hp),
        List.filter_cons_of_neg (by simpa using hp)]
      exact ih

theorem perm_eq_of_length_le_one {a b : List α} (h : a.Perm b)
    (hl : a.length ≤ 1) : a = b := by
  cases a with
  | nil => exact h.symm.eq_nil.symm
  | cons x t =>
    cases t with
    | nil => exact (List.perm_singleton.mp h.symm).symm
    | cons y u => simp at hl

theorem find?_eq_of_perm (p : α → Bool) {l l' : List α} (hperm : l.Perm l')
    (hc : l.countP p ≤ 1) : l.find? p = l'.find? p := by
  rw [find?_eq_head?_filter, find?_eq_head?_filter]
  have hfp : (l.filter p).Perm (l'.filter p) := hperm.filter p
  have hlen : (l.filter p).length ≤ 1 := by
    rw [← List.countP_eq_length_filter]
    exact hc
  rw [perm_eq_of_length_le_one hfp hlen]

theorem find?_filter_superset (p q : α → Bool) (l : List α)
    (hpq : ∀ e, p e = true → q e = true) :
    (l.filter q).find? p = l.find? p := by
  induction l with
  | nil => simp
  | cons e rest ih =>
    by_cases hq : q e
    · rw [List.filter_cons_of_pos hq]
      by_cases hp : p e
      · rw [List.find?_cons_of_pos _ hp, List.find?_cons_of_pos _ hp]
      · rw [List.find?_cons_of_neg _ (by simpa using hp),
          List.find?_cons_of_neg _ (by simpa using hp)]
        exact ih
    · rw [List.filter_cons_of_neg (by simpa using hq)]
      have hp : p e = false := by
        cases hpe : p e
        · rfl
        · exact absurd (hpq e hpe) (by simpa using hq)
      rw [List.find?_cons_of_neg _ (by simp [hp])]
      exact ih

theorem groupNumIs_unique (e : JVal) (k1 k2 : Int)
    (h1 : groupNumIs e k1 = true) (hne : k1 ≠ k2) :
    groupNumIs e k2 = false := by
  cases e with
  | obj fs =>
    simp only [groupNumIs] at h1 ⊢
    rcases hv : objGet? fs "schicht" with _ | v
    · rw [hv] at h1
      simp [pyEqIntOpt] at h1
    · rw [hv] at h1
      cases v with
      | num m =>
        simp only [pyEqIntOpt, beq_iff_eq] at h1
        simp only [pyEqIntOpt, beq_eq_false_iff_ne, ne_eq]
        omega
      | bool b =>
        simp only [pyEqIntOpt, beq_iff_eq] at h1
        simp only [pyEqIntOpt, beq_eq_false_iff_ne, ne_eq]
        cases b <;> simp_all
      | null => simp [pyEqIntOpt] at h1
      | str s => simp [pyEqIntOpt] at h1
      | arr xs => simp [pyEqIntOpt] at h1
      | obj fs2 => simp [pyEqIntOpt] at h1
  | null => simp [groupNumIs] at h1
  | bool b => simp [groupNumIs] at h1
  | num m => simp [groupNumIs] at h1
  | str s => simp [groupNumIs] at h1
  | arr xs => simp [groupNumIs] at h1

theorem pbGo_spec (rs : List JVal) :
    ∀ (fuel i : Nat) (out : List (List MatchResult)), pbGo rs fuel i = some out →
      out.length = fuel ∧
      ∀ t, t < out.length →
        some (out.getD t []) = groupParse rs (Int.ofNat (i + t + 1)) := by
  intro fuel
  induction fuel with
  | zero =>
    intro i out h
    simp only [pbGo, Option.some.injEq] at h
    subst h
    exact ⟨rfl, by intro t ht; simp at ht⟩
  | succ rem ih =>
    intro i out h
    simp only [pbGo] at h
    split at h
    · exact Option.noConfusion h
    · rename_i hfind
      rcases hrec : pbGo rs rem (i + 1) with _ | rest
      · rw [hrec] at h; exact Option.noConfusion h
      · rw [hrec] at h
        simp only [Option.map_some', Option.some.injEq] at h
        subst h
        obtain ⟨hlen, hspec⟩ := ih (i + 1) rest hrec
        refine ⟨by simp [hlen], ?_⟩
        intro t ht
        cases t with
        | zero => simp only [groupParse, hfind, List.getD_cons_zero]
        | succ u =>
          have hu := hspec u (by simpa using ht)
          have harith : i + 1 + u + 1 = i + (u + 1) + 1 := by omega
          rw [harith] at hu
          simpa using hu
    · rename_i fs hfind
      split at h
      · exact Option.noConfusion h
      · rename_i ms hms
        rcases hrec : pbGo rs rem (i + 1) with _ | rest
        · rw [hrec] at h; exact Option.noConfusion h
        · rw [hrec] at h
          simp only [Option.map_some', Option.some.injEq] at h
          subst h
          obtain ⟨hlen, hspec⟩ := ih (i + 1) rest hrec
          refine ⟨by simp [hlen], ?_⟩
          intro t ht
          cases t with
          | zero => simp only [groupParse, hfind, List.getD_cons_zero, hms]
          | succ u =>
            have hu := hspec u (by simpa using ht)
            have harith : i + 1 + u + 1 = i + (u + 1) + 1 := by omega
            rw [harith] at hu
            simpa using hu

theorem pbGo_congr (rs rs' : List JVal)
    (hg : ∀ k : Int, findGroup k rs = findGroup k rs') :
    ∀ (fuel i : Nat), pbGo rs fuel i = pbGo rs' fuel i := by
  intro fuel
  induction fuel with
  | zero => intro i; rfl
  | succ rem ih =>
    intro i
    simp only [pbGo, hg (Int.ofNat (i + 1)), ih (i + 1)]

/-- C3: the batch parser assigns each decoded group by its explicit
1-based group-number field, never by array position — the output for
material `i` is the parse of the first element whose `"schicht"` field
equals `i + 1`, the whole output is invariant under permuting the groups
(when group numbers are unique), and removing one material's group yields
the empty list for that material alone, leaving every other material's
matches unchanged. -/
theorem C3_batch_group_correlation (rs rs' : List JVal) (n j : Nat)
    (out out' : List (List MatchResult))
    (hobj : ∀ e ∈ rs, isObjJ e = true)
    (hperm : rs.Perm rs')
    (huniq : ∀ k : Int, rs.countP (fun e => groupNumIs e k) ≤ 1)
    (hout : parse_batch_response (.ok (batchData rs)) n = some out)
    (hout' : parse_batch_response
      (.ok (batchData (rs.filter (fun e => ! groupNumIs e (Int.ofNat (j + 1)))))) n =
      some out')
    (hj : j < n) :
    (∀ i, i < n → some (out.getD i []) = groupParse rs (Int.ofNat (i + 1))) ∧
    parse_batch_response (.ok (batchData rs')) n = some out ∧
    (out'.getD j [] = [] ∧
      ∀ i, i < n → i ≠ j → out'.getD i [] = out.getD i []) := by
  have hn : n ≠ 0 := by omega
  have hbd : ∀ (l : List JVal),
      parse_batch_response (.ok (batchData l)) n = pbGo l n 0 := by
    intro l
    simp [parse_batch_response, parse_batch_data, batchData, objGet?,
      List.find?, iterElems, hn]
  rw [hbd] at hout hout'
  have hobj' : ∀ e ∈ rs', isObjJ e = true :=
    fun e he => hobj e (hperm.mem_iff.mpr he)
  have hobjf : ∀ e ∈ rs.filter (fun e => ! groupNumIs e (Int.ofNat (j + 1))),
      isObjJ e = true :=
    fun e he => hobj e (List.mem_of_mem_filter he)
  obtain ⟨hlen, hspec⟩ := pbGo_spec rs n 0 out hout
  obtain ⟨hlen', hspec'⟩ := pbGo_spec _ n 0 out' hout'
  refine ⟨?_, ?_, ?_, ?_⟩
  · intro i hi
    simpa using hspec i (by omega)
  · rw [hbd]
    have hg : ∀ k : Int, findGroup k rs = findGroup k rs' := by
      intro k
      rw [findGroup_eq_find? k rs hobj, findGroup_eq_find? k rs' hobj',
        find?_eq_of_perm _ hperm (huniq k)]
    rw [← pbGo_congr rs rs' hg n 0]
    exact hout
  · have hj' := hspec' j (by omega)
    simp only [Nat.zero_add] at hj'
    have hfind : List.find? (fun e => groupNumIs e (Int.ofNat (j + 1)))
        (rs.filter (fun e => ! groupNumIs e (Int.ofNat (j + 1)))) = none := by
      rw [List.find?_eq_none]
      intro e he
      have hq := List.of_mem_filter he
      simp only [Bool.not_eq_true'] at hq
      simpa using hq
    rw [groupParse, findGroup_eq_find? _ _ hobjf, hfind] at hj'
    simpa using hj'.symm
  · intro i hi hij
    have hi1 := hspec i (by omega)
    have hi2 := hspec' i (by omega)
    simp only [Nat.zero_add] at hi1 hi2
    have hfeq : List.find? (fun e => groupNumIs e (Int.ofNat (i + 1)))
        (rs.filter (fun e => ! groupNumIs e (Int.ofNat (j + 1)))) =
        List.find? (fun e => groupNumIs e (Int.ofNat (i + 1))) rs := by
      apply find?_filter_superset
      intro e hpe
      have hne : Int.ofNat (i + 1) ≠ Int.ofNat (j + 1) := by
        simpa using hij
      have := groupNumIs_unique e (Int.ofNat (i + 1)) (Int.ofNat (j + 1)) hpe hne
      simpa using this
    rw [groupParse, findGroup_eq_find? _ _ hobjf, hfeq,
      ← findGroup_eq_find? _ _ hobj] at hi2
    rw [show groupParse rs (Int.ofNat (i + 1)) =
        (match findGroup (Int.ofNat (i + 1)) rs with
          | none => none
          | some none => some []
          | some (some fs) => extractGroupMatches fs) from rfl] at hi1
    have : some (out'.getD i []) = some (out.getD i []) := by
      rw [hi2, hi1]
    simpa using this

/-- Match item of the C3 concrete batch response. -/
def itemC3 : JVal := .obj [("id", .str "abc"), ("confidence", .num 90)]

/-- Group numbered 1 of the C3 concrete batch response. -/
def g1C3 : JVal := .obj [("schicht", .num 1), ("matches", .arr [itemC3])]

/-- Group numbered 2 of the C3 concrete batch response (no matches). -/
def g2C3 : JVal := .obj [("schicht", .num 2), ("matches", .arr [])]

/-- The parsed candidate of the C3 group numbered 1. -/
def mC3 : MatchResult := { uuid := "abc", begruendung := "", confidence := some 90 }

theorem C3_witness :
    ((∀ e ∈ [g2C3, g1C3], isObjJ e = true) ∧
      List.Perm [g2C3, g1C3] [g1C3, g2C3] ∧
      (∀ k : Int, List.countP (fun e => groupNumIs e k) [g2C3, g1C3] ≤ 1) ∧
      parse_batch_response (.ok (batchData [g2C3, g1C3])) 2 = some [[mC3], []] ∧
      parse_batch_response (.ok (batchData
        (List.filter (fun e => ! groupNumIs e (Int.ofNat (0 + 1))) [g2C3, g1C3]))) 2 =
        some [[], []] ∧
      0 < 2) ∧
    (parse_batch_response (.ok (batchData [g1C3, g2C3])) 2 = some [[mC3], []] ∧
      ([[], []] : List (List MatchResult)).getD 0 [] = []) := by
  have hobj : ∀ e ∈ [g2C3, g1C3], isObjJ e = true := by decide
  have hperm : List.Perm [g2C3, g1C3] [g1C3, g2C3] := List.Perm.swap g1C3 g2C3 []
  have huniq : ∀ k : Int, List.countP (fun e => groupNumIs e k) [g2C3, g1C3] ≤ 1 := by
    intro k
    simp only [List.countP_cons, List.countP_nil,
      show groupNumIs g2C3 k = ((2 : Int) == k) from rfl,
      show groupNumIs g1C3 k = ((1 : Int) == k) from rfl, beq_iff_eq]
    split_ifs <;> omega
  have hout : parse_batch_response (.ok (batchData [g2C3, g1C3])) 2 =
      some [[mC3], []] := by decide
  have hout' : parse_batch_response (.ok (batchData
      (List.filter (fun e => ! groupNumIs e (Int.ofNat (0 + 1))) [g2C3, g1C3]))) 2 =
      some [[], []] := by decide
  have hc := C3_batch_group_correlation [g2C3, g1C3] [g1C3, g2C3] 2 0 [[mC3], []]
    [[], []] hobj hperm huniq hout hout' (by omega)
  exact ⟨⟨hobj, hperm, huniq, hout, hout', by omega⟩, hc.2.1, hc.2.2.1⟩

theorem C2_witness :
    ((0 : Int) ≤ 10 ∧
      validate_batch_results [[mC2, mC2]] [matC2] [eC2] = some [[mC2, mC2]]) ∧
    (∀ r ∈ format_batch_results [[mC2, mC2]] 10, (remove_duplicates r.ids).Nodup) := by
  refine ⟨⟨by decide, by decide⟩, ?_⟩
  intro r hr
  exact ((C2_batch_ids_after_dedup [[mC2, mC2]] [matC2] [eC2] 10 [[mC2, mC2]]
    (by decide) (by decide)).2 r hr).1

end EPD
